import Mathlib

/-!
Verification of the TrendNews news-aggregation core against its design
specification.  The Lean definitions below are shallow embeddings of the
Python sources under `src/TrendNews/src`:

* `src/core/push_manager.py`   — push-record persistence and time window
* `src/notifiers/manager.py`   — `send_to_notifications` gating and record
* `src/processors/statistics.py` — word-group matching and statistics
* `src/processors/data_processor.py` — snapshot merge and diff detection
* `src/utils/message_utils.py` — batch packing

Pure functions become Lean functions; file/dict state becomes explicit
state passing; Python dictionaries become association lists (with key
uniqueness hypotheses where dictionary semantics require them) or
function-valued states; machine-independent `int` becomes `Int`/`Nat`.
-/

set_option autoImplicit false

namespace TrendNews

/-! ### Basic string helpers shared by several components -/

/-- UTF-8 byte length of a string, as Python's `len(s.encode("utf-8"))`. -/
def utf8Len (s : String) : Nat :=
  s.data.foldl (fun n c => n + c.utf8Size) 0

/-- The ASCII whitespace stripped by Python's `str.strip()` (Python also
strips the rarer Unicode space characters, which never occur in the
configured time strings or scraped titles handled here). -/
def isSpaceChar (c : Char) : Bool :=
  c == ' ' || c == '\t' || c == '\n' || c == '\r' || c == '\x0b' || c == '\x0c'

/-- `str.strip()`: drop leading and trailing whitespace. -/
def pyStrip (s : String) : String :=
  ⟨((s.data.dropWhile isSpaceChar).reverse.dropWhile isSpaceChar).reverse⟩

/-- `str.split(sep)` for a one-character separator. -/
def splitOnCharAux (c : Char) : List Char → List Char → List (List Char)
  | [], acc => [acc.reverse]
  | x :: xs, acc =>
      if x == c then acc.reverse :: splitOnCharAux c xs []
      else splitOnCharAux c xs (x :: acc)

/-- `s.split(":")`. -/
def pySplitColon (s : String) : List String :=
  (splitOnCharAux ':' s.data []).map (fun l => ⟨l⟩)

/-- ASCII lowering of one character (`str.lower()`; the scraped titles'
matching behavior only depends on ASCII case folding). -/
def lowerChar (c : Char) : Char :=
  if 'A' ≤ c ∧ c ≤ 'Z' then Char.ofNat (c.toNat + 32) else c

/-- `s.lower()`. -/
def lowerStr (s : String) : String := ⟨s.data.map lowerChar⟩

/-- Lexicographic `≤` on code-point lists (Python's string comparison). -/
def listLexLe : List Char → List Char → Bool
  | [], _ => true
  | _ :: _, [] => false
  | a :: as, b :: bs => a.toNat < b.toNat || (a == b && listLexLe as bs)

/-- Python's `a <= b` on strings. -/
def strLe (a b : String) : Bool := listLexLe a.data b.data

/-- Lexicographic `<` on code-point lists (Python's string comparison). -/
def listLexLt : List Char → List Char → Bool
  | [], [] => false
  | [], _ :: _ => true
  | _ :: _, [] => false
  | a :: as, b :: bs => a.toNat < b.toNat || (a == b && listLexLt as bs)

/-- Python's `a < b` on strings. -/
def strLt (a b : String) : Bool := listLexLt a.data b.data

/-! ### Push record manager (`src/core/push_manager.py`) -/

/-- State of today's push-record file: absent, present but unreadable or
unparsable JSON, or parsed JSON content (only the `pushed` field matters;
`record.get("pushed", False)` defaults a missing field to `False`). -/
inductive RecordFile
  | missing
  | unreadable
  | parsed (pushed : Option Bool)
deriving DecidableEq, Repr

/-- `PushRecordManager.has_pushed_today`: `False` when the file does not
exist; a read or JSON-parse failure is caught and also yields `False`;
otherwise the record's `pushed` field with default `False`. -/
def hasPushedToday : RecordFile → Bool
  | .missing => false
  | .unreadable => false
  | .parsed p => p.getD false

/-- Value of a run of decimal digits, `none` if a non-digit occurs. -/
def digitsVal : List Char → Nat → Option Nat
  | [], acc => some acc
  | c :: cs, acc =>
      if c.isDigit then digitsVal cs (acc * 10 + (c.toNat - 48)) else none

/-- Python's `int(s)` on a decimal string: surrounding whitespace is
tolerated, an optional single sign, then a nonempty digit run. -/
def pyInt (s : String) : Option Int :=
  match (pyStrip s).data with
  | [] => none
  | '-' :: cs => if cs.isEmpty then none else (digitsVal cs 0).map (fun n => -(n : Int))
  | '+' :: cs => if cs.isEmpty then none else (digitsVal cs 0).map (fun n => (n : Int))
  | cs => (digitsVal cs 0).map (fun n => (n : Int))

/-- `f"{n:02d}"` for the validated 0–59 range. -/
def pad2 (n : Nat) : String :=
  if n < 10 then "0" ++ toString n else toString n

/-- `normalize_time` inside `PushRecordManager.is_in_time_range`: split the
stripped string on `:`; with exactly two integer parts in valid hour/minute
ranges return the zero-padded `HH:MM`; any failure returns the input
unchanged (the `except` branch). -/
def normalizeTime (s : String) : String :=
  match pySplitColon (pyStrip s) with
  | [hs, ms] =>
      match pyInt hs, pyInt ms with
      | some h, some m =>
          if 0 ≤ h ∧ h ≤ 23 ∧ 0 ≤ m ∧ m ≤ 59 then
            pad2 h.toNat ++ ":" ++ pad2 m.toNat
          else s
      | _, _ => s
  | _ => s

/-- `PushRecordManager.is_in_time_range`, with the current `HH:MM`
time-of-day passed explicitly.  The comparison is Python's lexicographic
string comparison `normalized_start <= normalized_current <= normalized_end`. -/
def isInTimeRange (startT endT nowHM : String) : Bool :=
  strLe (normalizeTime startT) (normalizeTime nowHM)
    && strLe (normalizeTime nowHM) (normalizeTime endT)

/-- `CONFIG["PUSH_WINDOW"]`. -/
structure PushWindowConfig where
  enabled : Bool
  startTime : String
  endTime : String
  oncePerDay : Bool
  retentionDays : Int
deriving Repr

/-- Which delivery channels are configured (`TELEGRAM_BOT_TOKEN`/`CHAT_ID`
both nonempty; `EMAIL_FROM`/`PASSWORD`/`TO` all nonempty). -/
structure ChannelConfig where
  telegramConfigured : Bool
  emailConfigured : Bool
deriving Repr

/-- Environment of one `send_to_notifications` run: current time-of-day,
the persisted state of today's push-record file, and the outcome each
channel's send call would report. -/
structure SendEnv where
  nowHM : String
  todayRecord : RecordFile
  telegramSuccess : Bool
  emailSuccess : Bool
deriving Repr

/-- Effect of `PushRecordManager.cleanup_old_records` on *today's* record
file.  The sweep unlinks a record whose date is more than
`retention_days` days before now; for today's file the day difference is
`0`, so it is deleted only under a negative retention configuration. -/
def cleanupToday (retentionDays : Int) (f : RecordFile) : RecordFile :=
  if 0 > retentionDays then .missing else f

/-- `PushRecordManager.record_push`: overwrite today's record file with
`{"pushed": true, ...}`. -/
def recordPush (_f : RecordFile) : RecordFile := .parsed (some true)

/-- The per-channel results dict built by `send_to_notifications`. -/
def channelResults (ch : ChannelConfig) (env : SendEnv) : List (String × Bool) :=
  (if ch.telegramConfigured then [("telegram", env.telegramSuccess)] else [])
    ++ (if ch.emailConfigured then [("email", env.emailSuccess)] else [])

/-- Outcome of one `send_to_notifications` run. -/
structure SendResult where
  results : List (String × Bool)
  /-- delivery proceeded past the push-window gate
  (`prepare_report_data` and the channel sends were reached) -/
  proceeded : Bool
  finalRecord : RecordFile
  recordWritten : Bool
deriving Repr

/-- `send_to_notifications` (`src/notifiers/manager.py`), restricted to its
push-window gating, channel-result and push-record effects.  Rendering and
transport are external; each channel's reported outcome is part of the
environment. -/
def sendToNotifications (cfg : PushWindowConfig) (ch : ChannelConfig)
    (env : SendEnv) : SendResult :=
  -- gate: only evaluated when the push window is enabled
  if cfg.enabled
      && !(isInTimeRange cfg.startTime cfg.endTime env.nowHM) then
    { results := [], proceeded := false
      finalRecord := cleanupToday cfg.retentionDays env.todayRecord
      recordWritten := false }
  else if cfg.enabled && cfg.oncePerDay
      && hasPushedToday (cleanupToday cfg.retentionDays env.todayRecord) then
    { results := [], proceeded := false
      finalRecord := cleanupToday cfg.retentionDays env.todayRecord
      recordWritten := false }
  else
    let afterGate :=
      if cfg.enabled then cleanupToday cfg.retentionDays env.todayRecord
      else env.todayRecord
    let results := channelResults ch env
    if cfg.enabled && cfg.oncePerDay && results.any (fun p => p.2) then
      { results := results, proceeded := true
        finalRecord := recordPush (cleanupToday cfg.retentionDays afterGate)
        recordWritten := true }
    else
      { results := results, proceeded := true
        finalRecord := afterGate
        recordWritten := false }

/-! ### Data model shared by the processors -/

/-- Per-title data inside one snapshot (`{"ranks": ..., "url": ..., "mobileUrl": ...}`). -/
structure TitleData where
  ranks : List Int
  url : String
  mobileUrl : String
deriving Repr, DecidableEq

/-- A ledger entry of `title_info` (per source, per title, one day). -/
structure LedgerEntry where
  firstTime : String
  lastTime : String
  count : Nat
  ranks : List Int
  url : String
  mobileUrl : String
deriving Repr, DecidableEq

/-- A Python dict `title → data` as an association list (keys unique). -/
abbrev TitleMap := List (String × TitleData)

/-- A Python dict `source_id → title → data` as an association list. -/
abbrev Results := List (String × TitleMap)

/-- `title_info`: dict `source_id → title → ledger entry`. -/
abbrev Ledger := List (String × List (String × LedgerEntry))

/-! ### Word-group matching (`src/processors/statistics.py`) -/

/-- A configured interest word-group. -/
structure WordGroup where
  required : List String
  normal : List String
  groupKey : String
deriving Repr, DecidableEq

/-- `charsPre pat s`: `pat` is a leading segment of `s`. -/
def charsPre : List Char → List Char → Bool
  | [], _ => true
  | _ :: _, [] => false
  | a :: as, b :: bs => a == b && charsPre as bs

/-- Python's substring test `pat in s`, on character lists. -/
def subListOf (pat : List Char) : List Char → Bool
  | [] => pat.isEmpty
  | c :: cs => charsPre pat (c :: cs) || subListOf pat cs

/-- `pat in hay` for strings. -/
def subStr (hay pat : String) : Bool := subListOf pat.data hay.data

/-- One word-group's test against an already-lowercased title: all required
words must be substrings (vacuously true when none), and when normal words
exist at least one must be a substring. -/
def groupMatches (titleLower : String) (g : WordGroup) : Bool :=
  if g.required ≠ [] ∧ ¬(g.required.all (fun w => subStr titleLower (lowerStr w)) = true) then
    false
  else if g.normal ≠ [] ∧ ¬(g.normal.any (fun w => subStr titleLower (lowerStr w)) = true) then
    false
  else true

/-- `matches_word_groups`: a blank (stripped-empty) title never matches; with
no groups configured every remaining title matches; otherwise reject on any
case-insensitive filter-word hit, then walk the groups in order. -/
def matchesWordGroups (title : String) (wordGroups : List WordGroup)
    (filterWords : List String) : Bool :=
  if pyStrip title = "" then false
  else if wordGroups = [] then true
  else
    let titleLower := lowerStr title
    if filterWords.any (fun w => subStr titleLower (lowerStr w)) then false
    else wordGroups.any (fun g => groupMatches titleLower g)

/-! ### `count_word_frequency` -/

/-- The group key of the synthetic fallback group. -/
def allNewsKey : String := "tất cả tin tức"

/-- The `len(word_groups) == 1 and word_groups[0]["group_key"] == "tất cả
tin tức"` special case of the inner matching loop. -/
def allNewsSingleton : List WordGroup → Bool
  | [g] => g.groupKey == allNewsKey
  | _ => false

/-- `format_time_display` (`src/utils/time_utils.py`). -/
def formatTimeDisplay (firstTime lastTime : String) : String :=
  if firstTime = "" then ""
  else if firstTime = lastTime ∨ lastTime = "" then firstTime
  else "[" ++ firstTime ++ " ~ " ++ lastTime ++ "]"

/-- One rendered title entry appended to `word_stats[...]["titles"][source_id]`. -/
structure TitleDisplay where
  title : String
  sourceName : String
  firstTime : String
  lastTime : String
  timeDisplay : String
  count : Nat
  ranks : List Int
  rankThreshold : Int
  url : String
  mobileUrl : String
  isNew : Bool
deriving Repr, DecidableEq

/-- One entry of the returned `sorted_stats` list. -/
structure StatEntry where
  word : String
  count : Nat
  titles : List TitleDisplay
deriving Repr, DecidableEq

/-- Context threaded through the statistics loops (the function arguments
and mode-derived flags of `count_word_frequency`). -/
structure CountCtx where
  wordGroups : List WordGroup
  filterWords : List String
  idToName : List (String × String)
  titleInfo : Ledger
  newTitles : Results
  allNewsAreNew : Bool
  rankThreshold : Int

/-- The dict value of `word_stats[group_key]`. -/
structure GroupStat where
  count : Nat
  titles : List (String × List TitleDisplay)
deriving Repr, DecidableEq

/-- Dict assignment `d[k] = v` on an association list: replace in place or
append a fresh key at the end (Python dicts preserve insertion order). -/
def setAssoc {β : Type} (k : String) (v : β) : List (String × β) → List (String × β)
  | [] => [(k, v)]
  | p :: ps => if p.1 == k then (k, v) :: ps else p :: setAssoc k v ps

/-- Append a display to `titles[source_id]`, creating the list on first use. -/
def appendToSource (sid : String) (d : TitleDisplay) :
    List (String × List TitleDisplay) → List (String × List TitleDisplay)
  | [] => [(sid, [d])]
  | p :: ps => if p.1 == sid then (p.1, p.2 ++ [d]) :: ps else p :: appendToSource sid d ps

/-- `processed_titles[source_id][title] = True`. -/
def addProcessed (sid t : String) : List (String × List String) → List (String × List String)
  | [] => [(sid, [t])]
  | p :: ps => if p.1 == sid then (p.1, p.2 ++ [t]) :: ps else p :: addProcessed sid t ps

/-- Build the display dict appended for one matched `(source, title)` pair:
defaults from the snapshot data, overridden from the full-day ledger when
the ledger has this title, rank fallback `[99]`, display-name mapping, and
the `is_new` decision. -/
def buildDisplay (ctx : CountCtx) (sourceId title : String) (d : TitleData) : TitleDisplay :=
  let infoOpt :=
    if ctx.titleInfo.isEmpty then none
    else (List.lookup sourceId ctx.titleInfo).bind (fun m => List.lookup title m)
  let firstTime := match infoOpt with | some i => i.firstTime | none => ""
  let lastTime := match infoOpt with | some i => i.lastTime | none => ""
  let countInfo := match infoOpt with | some i => i.count | none => 1
  let ranks0 := match infoOpt with
    | some i => if i.ranks ≠ [] then i.ranks else d.ranks
    | none => d.ranks
  let url := match infoOpt with | some i => i.url | none => d.url
  let mobileUrl := match infoOpt with | some i => i.mobileUrl | none => d.mobileUrl
  let ranks := if ranks0 = [] then [99] else ranks0
  let isNew :=
    if ctx.allNewsAreNew then true
    else if ctx.newTitles ≠ [] then
      match List.lookup sourceId ctx.newTitles with
      | some lst => lst.any (fun q => q.1 == title)
      | none => false
    else false
  { title := title
    sourceName := (List.lookup sourceId ctx.idToName).getD sourceId
    firstTime := firstTime
    lastTime := lastTime
    timeDisplay := formatTimeDisplay firstTime lastTime
    count := countInfo
    ranks := ranks
    rankThreshold := ctx.rankThreshold
    url := url
    mobileUrl := mobileUrl
    isNew := isNew }

/-- Mutable state of the statistics loops. -/
structure CountState where
  wordStats : List (String × GroupStat)
  totalTitles : Nat
  processed : List (String × List String)

/-- Body of the per-title loop: memo check, unified match check, then find
the first matching group (the singleton "all news" group matches
unconditionally), append the display and memoize. -/
def processTitle (ctx : CountCtx) (sourceId : String) (st : CountState)
    (p : String × TitleData) : CountState :=
  let title := p.1
  if ((List.lookup sourceId st.processed).getD []).contains title then st
  else if ¬(matchesWordGroups title ctx.wordGroups ctx.filterWords = true) then st
  else
    match ctx.wordGroups.find?
        (fun g => allNewsSingleton ctx.wordGroups || groupMatches (lowerStr title) g) with
    | none => st
    | some g =>
        { st with
          wordStats := st.wordStats.map (fun q =>
            if q.1 == g.groupKey then
              (q.1, { count := q.2.count + 1
                      titles := appendToSource sourceId (buildDisplay ctx sourceId title p.2) q.2.titles })
            else q)
          processed := addProcessed sourceId title st.processed }

/-- Body of the per-source loop. -/
def processSource (ctx : CountCtx) (st : CountState) (q : String × TitleMap) : CountState :=
  q.2.foldl (processTitle ctx q.1)
    { st with totalTitles := st.totalTitles + q.2.length }

/-- One step of the `latest_time` scan: a nonempty `last_time` replaces the
running maximum when strictly later. -/
def maxStep (acc : Option String) (lt : String) : Option String :=
  if lt ≠ "" then
    match acc with
    | none => some lt
    | some m => if strLt m lt then some lt else some m
  else acc

/-- `latest_time`: maximum nonempty `last_time` over the whole ledger,
`none` when the ledger carries no nonempty `last_time`. -/
def maxLastTime (titleInfo : Ledger) : Option String :=
  titleInfo.foldl (fun acc p =>
    p.2.foldl (fun acc q => maxStep acc q.2.lastTime) acc) none

/-- Per-source filtering of "current" mode: keep the titles whose ledger
entry's `last_time` equals the latest time (sources absent from the ledger
keep nothing). -/
def currentScopeInner (titleInfo : Ledger) (latest : String)
    (p : String × TitleMap) : TitleMap :=
  match List.lookup p.1 titleInfo with
  | some infoTitles =>
      p.2.filter (fun q =>
        match List.lookup q.1 infoTitles with
        | some e => e.lastTime == latest
        | none => false)
  | none => []

/-- "current" mode scope: keep exactly the titles of `results` whose ledger
entry's `last_time` equals the latest time; sources whose filtered map is
empty are dropped.  Falls back to the whole of `results` when the ledger is
empty or carries no nonempty `last_time`. -/
def currentScope (results : Results) (titleInfo : Ledger) : Results :=
  if titleInfo.isEmpty then results
  else
    match maxLastTime titleInfo with
    | none => results
    | some latest =>
        (results.map (fun p => (p.1, currentScopeInner titleInfo latest p))).filter
          (fun p => !p.2.isEmpty)

/-- Stable insertion of `x` into a sorted list: `x` is placed before the
first element it compares `le`-to, so elements with equal keys keep their
original relative order (Python's `list.sort` is stable). -/
def insertSorted {α : Type} (le : α → α → Bool) (x : α) : List α → List α
  | [] => [x]
  | y :: ys => if le x y then x :: y :: ys else y :: insertSorted le x ys

/-- Stable sort by a boolean `le` (models Python's stable `list.sort`). -/
def insertionSortBy {α : Type} (le : α → α → Bool) : List α → List α
  | [] => []
  | x :: xs => insertSorted le x (insertionSortBy le xs)

/-- Sort key for titles inside a group:
`(not is_new, min(ranks) if ranks else 100, last_time)` ascending. -/
def titleSortLe (a b : TitleDisplay) : Bool :=
  let minR : List Int → Int
    | [] => 100
    | r :: rest => rest.foldl (fun x y => if y < x then y else x) r
  let ka1 : Nat := if a.isNew then 0 else 1
  let kb1 : Nat := if b.isNew then 0 else 1
  decide (ka1 < kb1) ||
    (ka1 == kb1 &&
      (decide (minR a.ranks < minR b.ranks) ||
        (minR a.ranks == minR b.ranks && decide (a.lastTime ≤ b.lastTime))))

/-- Final conversion of `word_stats`: keep groups with positive count,
flatten the per-source lists in dict order, sort titles, then sort groups
by descending count (both sorts stable). -/
def finalizeStats (wordStats : List (String × GroupStat)) : List StatEntry :=
  let sortedStats := wordStats.foldl (fun acc p =>
    if p.2.count > 0 then
      acc ++ [{ word := p.1, count := p.2.count
                titles := insertionSortBy titleSortLe
                  (p.2.titles.foldl (fun l q => l ++ q.2) []) }]
    else acc) []
  insertionSortBy (fun a b => decide (b.count ≤ a.count)) sortedStats

/-- `count_word_frequency` (`src/processors/statistics.py`).  The external
`is_first_crawl_today()` probe is passed in as `isFirstToday`; `None`
arguments become empty lists. -/
def countWordFrequency (results : Results) (wordGroups0 : List WordGroup)
    (filterWords0 : List String) (idToName : List (String × String))
    (titleInfo : Ledger) (rankThreshold : Int) (newTitles : Results)
    (mode : String) (isFirstToday : Bool) : List StatEntry × Nat :=
  let wordGroups :=
    if wordGroups0 = [] then [{ required := [], normal := [], groupKey := allNewsKey }]
    else wordGroups0
  let filterWords := if wordGroups0 = [] then [] else filterWords0
  let resultsToProcess :=
    if mode = "incremental" then
      (if isFirstToday then results else newTitles)
    else if mode = "current" then currentScope results titleInfo
    else results
  let allNewsAreNew := mode = "incremental"
  let ctx : CountCtx :=
    { wordGroups := wordGroups, filterWords := filterWords, idToName := idToName
      titleInfo := titleInfo, newTitles := newTitles
      allNewsAreNew := allNewsAreNew, rankThreshold := rankThreshold }
  let init : CountState :=
    { wordStats := wordGroups.foldl (fun m g => setAssoc g.groupKey { count := 0, titles := [] } m) []
      totalTitles := 0
      processed := [] }
  let final := resultsToProcess.foldl (processSource ctx) init
  (finalizeStats final.wordStats, final.totalTitles)

/-! ### Snapshot merger (`process_source_data` / `read_all_today_titles`) -/

/-- Pointwise update of a function-valued dict. -/
def updFun {β : Type} (f : String → β) (k : String) (v : β) : String → β :=
  fun x => if x = k then v else f x

/-- Build a Python dict from key/value pairs (later pairs win). -/
def dictOf (l : TitleMap) : String → Option TitleData :=
  l.foldl (fun m p => updFun m p.1 (some p.2)) (fun _ => none)

/-- A fresh ledger entry for a title's first encounter. -/
def newEntry (time : String) (d : TitleData) : LedgerEntry :=
  { firstTime := time, lastTime := time, count := 1, ranks := d.ranks
    url := d.url, mobileUrl := d.mobileUrl }

/-- `merged_ranks`: copy the existing ranks, then append each incoming rank
not already present. -/
def mergeRanks (existing incoming : List Int) : List Int :=
  incoming.foldl (fun m r => if r ∈ m then m else m ++ [r]) existing

/-- The two dicts mutated by `process_source_data`: `all_results` (per
source, per title: snapshot-shaped data) and `title_info` (the ledger,
flattened to one lookup over source and title). -/
structure MergeState where
  allResults : String → Option (String → Option TitleData)
  titleInfo : String → String → Option LedgerEntry

/-- The empty starting state of `read_all_today_titles`. -/
def emptyMergeState : MergeState :=
  { allResults := fun _ => none, titleInfo := fun _ _ => none }

/-- The ledger-entry update applied on a re-encounter of a title. -/
def mergeEntry (time : String) (d : TitleData) (merged : List Int)
    (e : LedgerEntry) : LedgerEntry :=
  { e with lastTime := time, ranks := merged, count := e.count + 1
           url := if e.url = "" then d.url else e.url
           mobileUrl := if e.mobileUrl = "" then d.mobileUrl else e.mobileUrl }

/-- Body of the per-title loop of `process_source_data`'s else branch
(the source is already present in `all_results`). -/
def mergeTitle (time sourceId : String) (st : MergeState)
    (p : String × TitleData) : MergeState :=
  match st.allResults sourceId with
  | none => st
  | some res =>
    match res p.1 with
    | none =>
        { allResults := updFun st.allResults sourceId (some (updFun res p.1 (some p.2)))
          titleInfo := fun s t =>
            if s = sourceId ∧ t = p.1 then some (newEntry time p.2)
            else st.titleInfo s t }
    | some existing =>
        { allResults := updFun st.allResults sourceId (some (updFun res p.1 (some
            { ranks := mergeRanks existing.ranks p.2.ranks
              url := if existing.url = "" then p.2.url else existing.url
              mobileUrl := if existing.mobileUrl = "" then p.2.mobileUrl
                else existing.mobileUrl })))
          titleInfo := fun s t =>
            if s = sourceId ∧ t = p.1 then
              match st.titleInfo sourceId p.1 with
              | some e => some (mergeEntry time p.2 (mergeRanks existing.ranks p.2.ranks) e)
              | none => none
            else st.titleInfo s t }

/-- `process_source_data`: on a source's first encounter adopt its snapshot
dict wholesale and create fresh ledger entries; otherwise merge title by
title. -/
def processSourceData (sourceId : String) (titleData : TitleMap)
    (time : String) (st : MergeState) : MergeState :=
  match st.allResults sourceId with
  | none =>
      { allResults := updFun st.allResults sourceId (some (dictOf titleData))
        titleInfo := titleData.foldl (fun ti p =>
          fun s t => if s = sourceId ∧ t = p.1 then some (newEntry time p.2)
            else ti s t) st.titleInfo }
  | some _ => titleData.foldl (mergeTitle time sourceId) st

/-- The merge fold of `read_all_today_titles` over the day's ordered,
parsed snapshots `(time, parsed content)`, starting from empty dicts. -/
def readAllTodayTitles (snaps : List (String × Results)) : MergeState :=
  snaps.foldl (fun st q =>
    q.2.foldl (fun st p => processSourceData p.1 p.2 q.1 st) st) emptyMergeState

/-- The `(snapshot time, title data)` occurrences of `(sid, t)` across the
day's snapshots, in order. -/
def occurrencesOf (snaps : List (String × Results)) (sid t : String) :
    List (String × TitleData) :=
  snaps.filterMap (fun q =>
    ((List.lookup sid q.2).bind (fun tm => List.lookup t tm)).map (fun d => (q.1, d)))

/-- The ledger entry the specification predicts from a title's occurrence
list: count = number of occurrences, first/last snapshot time, ranks =
first-seen-order deduplication of all occurrence ranks, url/mobileUrl =
first nonempty value seen. -/
def specEntry (l : List (String × TitleData)) : LedgerEntry :=
  { firstTime := (l.head?.map Prod.fst).getD ""
    lastTime := (l.getLast?.map Prod.fst).getD ""
    count := l.length
    ranks := mergeRanks [] ((l.map (fun x => x.2.ranks)).flatten)
    url := ((l.map (fun x => x.2.url)).find? (fun u => !(u == ""))).getD ""
    mobileUrl := ((l.map (fun x => x.2.mobileUrl)).find? (fun u => !(u == ""))).getD "" }

/-- One-occurrence effect on a ledger entry: create on first encounter,
merge on re-encounter. -/
def stepSpec (time : String) (d : TitleData) : Option LedgerEntry → Option LedgerEntry
  | none => some (newEntry time d)
  | some e => some (mergeEntry time d (mergeRanks e.ranks d.ranks) e)

/-- Iterating `stepSpec` over an occurrence list. -/
def stepFold (l : List (String × TitleData)) (acc : Option LedgerEntry) :
    Option LedgerEntry :=
  l.foldl (fun a p => stepSpec p.1 p.2 a) acc

/-- Coherence of the two dicts of `process_source_data`: a source absent
from `all_results` has no ledger entries, and when present, each title's
presence and its `ranks`/`url`/`mobileUrl` agree between the two dicts. -/
def MergeInv (st : MergeState) : Prop :=
  ∀ sid t,
    (st.allResults sid = none → st.titleInfo sid t = none) ∧
    ∀ res, st.allResults sid = some res →
      (res t = none ∧ st.titleInfo sid t = none) ∨
      (∃ d e, res t = some d ∧ st.titleInfo sid t = some e ∧
        d.ranks = e.ranks ∧ d.url = e.url ∧ d.mobileUrl = e.mobileUrl)

/-! ### Diff detector (`detect_latest_new_titles`) -/

/-- The optional `current_platform_ids` allow-list filter applied to one
parsed snapshot. -/
def filterByPlatform (ids? : Option (List String)) (snap : Results) : Results :=
  match ids? with
  | none => snap
  | some ids => snap.filter (fun p => ids.contains p.1)

/-- Membership of `(sid, t)` in the historical union built from all
snapshots except the latest. -/
def inHistorical (ids? : Option (List String)) (historical : List Results)
    (sid t : String) : Bool :=
  historical.any (fun snap =>
    (filterByPlatform ids? snap).any
      (fun q => q.1 == sid && q.2.any (fun p => p.1 == t)))

/-- `detect_latest_new_titles` over the day's ordered, parsed snapshot
list: with fewer than two snapshots return empty; otherwise report, per
source of the latest snapshot, the titles absent from the historical union,
with the latest snapshot's data; sources with no new titles are dropped. -/
def detectLatestNewTitles (ids? : Option (List String))
    (snaps : List Results) : Results :=
  if snaps.length < 2 then []
  else
    let latest := filterByPlatform ids? (snaps.getLast?.getD [])
    let historical := snaps.dropLast
    (latest.map (fun q =>
      (q.1, q.2.filter (fun p => !(inHistorical ids? historical q.1 p.1))))).filter
      (fun q => !q.2.isEmpty)

/-! ### Observation helpers used by the statistics theorems -/

/-- Number of displays for title `t` inside `word_stats`. -/
def occW (ws : List (String × GroupStat)) (t : String) : Nat :=
  (ws.map (fun q => (q.2.titles.map (fun r => r.2.countP (fun dd => dd.title == t))).sum)).sum

/-- Number of displays for title `t` in the returned statistics. -/
def occStats (stats : List StatEntry) (t : String) : Nat :=
  (stats.map (fun st => st.titles.countP (fun dd => dd.title == t))).sum

/-- `(t, d)` is one of source `sid`'s titles in the dict-of-dicts `input`. -/
def pairMem (input : Results) (sid t : String) (d : TitleData) : Prop :=
  ∃ tm, (sid, tm) ∈ input ∧ (t, d) ∈ tm

/-- `(t, e)` is one of source `sid`'s ledger entries. -/
def ledgerMem (li : Ledger) (sid t : String) (e : LedgerEntry) : Prop :=
  ∃ m, (sid, m) ∈ li ∧ (t, e) ∈ m

/-- The unified per-title eligibility test of the statistics loop. -/
def eligible (ctx : CountCtx) (t : String) : Bool :=
  matchesWordGroups t ctx.wordGroups ctx.filterWords

/-- Key of the group the inner loop attributes a title to. -/
def findKey (ctx : CountCtx) (t : String) : Option String :=
  (ctx.wordGroups.find?
      (fun g => allNewsSingleton ctx.wordGroups || groupMatches (lowerStr t) g)).map
    (fun g => g.groupKey)

/-- Membership of `t` in the `processed_titles` memo for source `sid`. -/
def memoHas (st : CountState) (sid t : String) : Bool :=
  ((List.lookup sid st.processed).getD []).contains t

/-- Invariant carried by the statistics loops: the `word_stats` dict has
unique keys, keeps a bucket for every configured group, its counts agree
with the stored displays, and every stored display was built by
`buildDisplay` from an input pair and sits in the bucket of the first
matching group. -/
structure LoopInv (ctx : CountCtx) (input : Results) (st : CountState) : Prop where
  keysNodup : (st.wordStats.map Prod.fst).Nodup
  keysHave : ∀ g ∈ ctx.wordGroups, g.groupKey ∈ st.wordStats.map Prod.fst
  cntEq : ∀ q ∈ st.wordStats, q.2.count = (q.2.titles.map (fun r => r.2.length)).sum
  attr : ∀ q ∈ st.wordStats, ∀ r ∈ q.2.titles, ∀ dd ∈ r.2,
    (∃ d, pairMem input r.1 dd.title d ∧ dd = buildDisplay ctx r.1 dd.title d) ∧
      findKey ctx dd.title = some q.1

/-! ### Batch packer (`split_content_into_batches`)

The packer is embedded in two stages that together mirror the Python
function line by line: first the ordered list of strings the function
would append to its running buffer is computed (`fullScript`), each
tagged with how the function treats it — `unit` carries the re-stamp
prefix used when the buffer is flushed (the `current_batch = <headers> +
unit` assignments), `sep` is the inter-group separator added only when it
fits, and `forced` is the newline appended after each new-titles source
without any size check; second, a fold (`execScript`) runs the function's
single buffer discipline (tentative append, measure with the reserved
footer, flush at or above the budget) over that list. -/

/-- One element of `report_data["stats"]`, with each title already
rendered by the (quantified) formatter. -/
structure StatGroupB where
  word : String
  count : Nat
  titles : List String

/-- One element of `report_data["new_titles"]`, titles already rendered. -/
structure NewSourceB where
  sourceName : String
  titles : List String

/-- The report dict consumed by `split_content_into_batches`. -/
structure ReportDataB where
  stats : List StatGroupB
  newTitles : List NewSourceB
  totalNewCount : Nat
  failedIds : List String

/-- `total_titles`: titles of groups with positive count. -/
def totalTitlesOf (stats : List StatGroupB) : Nat :=
  (stats.filter (fun g => 0 < g.count)).foldl (fun n g => n + g.titles.length) 0

/-- `base_header` (both format branches produce the same string). -/
def baseHeaderOf (stats : List StatGroupB) : String :=
  "Tổng số tin tức： " ++ Nat.repr (totalTitlesOf stats) ++ "\n\n"

/-- `base_footer`, with the optional telegram update notice. -/
def baseFooterOf (ftype nowStr : String) (upd : Option (String × String)) : String :=
  "\n\nCập nhật lúc：" ++ nowStr ++
    (if ftype == "telegram" then
      match upd with
      | some (rv, cv) =>
          "\nTrendRadar phát hiện phiên bản mới " ++ rv ++ "，hiện tại " ++ cv
      | none => ""
    else "")

/-- `stats_header`, set only when stats exist. -/
def statsHeaderOf (stats : List StatGroupB) : String :=
  if stats.isEmpty then "" else "📊 Thống kê từ khóa nóng\n\n"

/-- `word_header` of group `g` at zero-based position `i` of `n`. -/
def wordHeaderOf (ftype : String) (n i : Nat) (g : StatGroupB) : String :=
  if ftype == "telegram" then
    (if 10 ≤ g.count then "🔥 " else if 5 ≤ g.count then "📈 " else "📌 ") ++
      "[" ++ Nat.repr (i + 1) ++ "/" ++ Nat.repr n ++ "] " ++ g.word ++ " : " ++
      Nat.repr g.count ++ " tin\n\n"
  else
    "[" ++ Nat.repr (i + 1) ++ "/" ++ Nat.repr n ++ "] " ++ g.word ++ " : " ++
      Nat.repr g.count ++ " tin\n\n"

/-- `first_news_line` of a stat group (empty when the group has no titles,
with the blank line appended when more titles follow). -/
def firstLineOf (g : StatGroupB) : String :=
  match g.titles with
  | [] => ""
  | t :: rest => "  1. " ++ t ++ "\n" ++ (if rest.isEmpty then "" else "\n")

/-- The remaining `news_line`s of a stat group (`j` counts from 1; a blank
line is appended except after the last title). -/
def statRestLines (len : Nat) : Nat → List String → List String
  | _, [] => []
  | j, t :: ts =>
      ("  " ++ Nat.repr (j + 1) ++ ". " ++ t ++ "\n" ++
        (if j < len - 1 then "\n" else "")) :: statRestLines len (j + 1) ts

/-- `new_header` of the new-titles section. -/
def newHeaderOf (totalNewCount : Nat) : String :=
  "\n\n🆕 Tin tức nóng mới (tổng " ++ Nat.repr totalNewCount ++ " tin)\n\n"

/-- `source_header` of one new-titles source. -/
def sourceHeaderOf (src : NewSourceB) : String :=
  src.sourceName ++ " (" ++ Nat.repr src.titles.length ++ " tin):\n\n"

/-- `first_news_line` of one new-titles source (no trailing blank line). -/
def newFirstLineOf (src : NewSourceB) : String :=
  match src.titles with
  | [] => ""
  | t :: _ => "  1. " ++ t ++ "\n"

/-- The remaining `news_line`s of a new-titles source. -/
def newRestLines : Nat → List String → List String
  | _, [] => []
  | j, t :: ts => ("  " ++ Nat.repr (j + 1) ++ ". " ++ t ++ "\n") :: newRestLines (j + 1) ts

/-- `failed_header` of the failed-platforms section. -/
def failedHeader : String := "\n\n⚠️ Nền tảng lấy dữ liệu thất bại：\n\n"

/-- One `failed_line`. -/
def failedLineOf (idv : String) : String := "  • " ++ idv ++ "\n"

/-- `mode_text` of the empty-report placeholder. -/
def modeTextOf (mode : String) : String :=
  if mode == "incremental" then "Chế độ tăng dần: Tạm thời không có từ khóa nóng khớp"
  else if mode == "current" then "Chế độ hiện tại: Tạm thời không có từ khóa nóng khớp"
  else "Tạm thời không có từ khóa nóng khớp"

/-- One string appended to the running buffer, tagged by the packer's
treatment: an atomic placement unit with its flush re-stamp prefix, a
size-checked separator, or an unconditional append. -/
inductive PackPiece where
  | unit (restamp text : String)
  | sep (text : String)
  | forced (text : String)
deriving DecidableEq

/-- The text a piece appends to the buffer. -/
def pieceText : PackPiece → String
  | .unit _ t => t
  | .sep t => t
  | .forced t => t

/-- Whether a piece is a droppable separator. -/
def isSep : PackPiece → Bool
  | .sep _ => true
  | _ => false

/-- Pieces of the stats loop from group index `i` on: the atomic (word
header + first line) unit, the remaining lines re-stamped with the word
header, and the separator between groups. -/
def statScript (ftype bh sh : String) (n : Nat) : Nat → List StatGroupB → List PackPiece
  | _, [] => []
  | i, g :: gs =>
      (PackPiece.unit (bh ++ sh) (wordHeaderOf ftype n i g ++ firstLineOf g) ::
        (statRestLines g.titles.length 1 g.titles.tail).map
          (PackPiece.unit (bh ++ sh ++ wordHeaderOf ftype n i g)) ++
        (if i < n - 1 then [PackPiece.sep "\n\n"] else [])) ++
      statScript ftype bh sh n (i + 1) gs

/-- Pieces of the new-titles loop: per source the atomic (source header +
first line) unit, the remaining lines re-stamped with the source header,
and the unconditional trailing newline. -/
def newScript (bh nh : String) : List NewSourceB → List PackPiece
  | [] => []
  | src :: srcs =>
      (PackPiece.unit (bh ++ nh) (sourceHeaderOf src ++ newFirstLineOf src) ::
        (newRestLines 1 src.titles.tail).map
          (PackPiece.unit (bh ++ nh ++ sourceHeaderOf src)) ++
        [PackPiece.forced "\n"]) ++
      newScript bh nh srcs

/-- Pieces of the failed-platforms loop. -/
def failedScript (bh fh : String) (ids : List String) : List PackPiece :=
  ids.map (fun idv => PackPiece.unit (bh ++ fh) (failedLineOf idv))

/-- The full ordered append script of the packer: each section header is
itself a unit re-stamped with the base header, followed by its loop. -/
def fullScript (ftype : String) (rd : ReportDataB) : List PackPiece :=
  (if rd.stats.isEmpty then [] else
    PackPiece.unit (baseHeaderOf rd.stats) (statsHeaderOf rd.stats) ::
      statScript ftype (baseHeaderOf rd.stats) (statsHeaderOf rd.stats)
        rd.stats.length 0 rd.stats) ++
  (if rd.newTitles.isEmpty then [] else
    PackPiece.unit (baseHeaderOf rd.stats) (newHeaderOf rd.totalNewCount) ::
      newScript (baseHeaderOf rd.stats) (newHeaderOf rd.totalNewCount) rd.newTitles) ++
  (if rd.failedIds.isEmpty then [] else
    PackPiece.unit (baseHeaderOf rd.stats) failedHeader ::
      failedScript (baseHeaderOf rd.stats) failedHeader rd.failedIds)

/-- The packer's mutable state: completed batches, the running buffer and
the `current_batch_has_content` flag. -/
structure PackState where
  batches : List String
  current : String
  hasContent : Bool

/-- Placing one atomic unit: tentatively append it, measure together with
the reserved footer, and at or above the budget flush the buffer (when it
has content) and restart from the re-stamped headers plus the unit. -/
def addUnit (maxB : Nat) (footer restamp u : String) (st : PackState) : PackState :=
  if maxB ≤ utf8Len (st.current ++ u) + utf8Len footer then
    { batches := if st.hasContent then st.batches ++ [st.current ++ footer] else st.batches
      current := restamp ++ u
      hasContent := true }
  else
    { batches := st.batches, current := st.current ++ u, hasContent := true }

/-- The inter-group separator: appended only when it still fits. -/
def addSep (maxB : Nat) (footer s : String) (st : PackState) : PackState :=
  if utf8Len (st.current ++ s) + utf8Len footer < maxB then
    { st with current := st.current ++ s }
  else st

/-- Execute one scripted piece. -/
def execPiece (maxB : Nat) (footer : String) (st : PackState) : PackPiece → PackState
  | .unit restamp u => addUnit maxB footer restamp u st
  | .sep s => addSep maxB footer s st
  | .forced s => { st with current := st.current ++ s }

/-- Run the whole script through the buffer discipline. -/
def execScript (maxB : Nat) (footer : String) (ps : List PackPiece)
    (st : PackState) : PackState :=
  ps.foldl (execPiece maxB footer) st

/-- The final flush of the buffer when it has content. -/
def finalizeBatches (footer : String) (st : PackState) : List String :=
  if st.hasContent then st.batches ++ [st.current ++ footer] else st.batches

/-- `split_content_into_batches`: the empty-report placeholder short
circuit, else the script executed from a buffer holding the base header
with `current_batch_has_content = False`. -/
def splitContentIntoBatches (ftype nowStr : String) (upd : Option (String × String))
    (maxBytes : Nat) (mode : String) (rd : ReportDataB) : List String :=
  if rd.stats.isEmpty && rd.newTitles.isEmpty && rd.failedIds.isEmpty then
    [baseHeaderOf rd.stats ++ "📭 " ++ modeTextOf mode ++ "\n\n" ++
      baseFooterOf ftype nowStr upd]
  else
    finalizeBatches (baseFooterOf ftype nowStr upd)
      (execScript maxBytes (baseFooterOf ftype nowStr upd) (fullScript ftype rd)
        { batches := [], current := baseHeaderOf rd.stats, hasContent := false })

/-- `k` newlines, as appended after successive new-titles sources. -/
def nlRepeat : Nat → String
  | 0 => ""
  | k + 1 => nlRepeat k ++ "\n"

/-- A buffer's size-checked core: it either fits strictly under the budget
together with the reserved footer, or it is exactly one re-stamped atomic
unit that already meets or exceeds the budget with the footer. -/
def BaseOK (maxB : Nat) (footer : String) (U : String → String → Prop)
    (base : String) : Prop :=
  utf8Len base + utf8Len footer < maxB ∨
  ∃ pre u, U pre u ∧ base = pre ++ u ∧ maxB ≤ utf8Len base + utf8Len footer

/-- Shape of the running buffer: a size-checked core followed by the
unconditional per-source newlines. -/
def CurOK (maxB : Nat) (footer : String) (U : String → String → Prop)
    (cur : String) : Prop :=
  ∃ base k, cur = base ++ nlRepeat k ∧ BaseOK maxB footer U base

/-- Shape of a completed batch: a size-checked core, the unconditional
newlines, then the footer. -/
def BatchOK (maxB : Nat) (footer : String) (U : String → String → Prop)
    (b : String) : Prop :=
  ∃ base k, b = base ++ nlRepeat k ++ footer ∧ BaseOK maxB footer U base

/-- The re-stamp prefix a batch starts with (that of its first piece). -/
def stampOf : List PackPiece → String
  | PackPiece.unit pre _ :: _ => pre
  | _ => ""

/-- Concatenation of the texts of a batch's pieces. -/
def joinTexts (us : List PackPiece) : String :=
  us.foldl (fun s p => s ++ pieceText p) ""

/-- The full text of a batch holding the pieces `us`. -/
def batchRender (footer : String) (us : List PackPiece) : String :=
  stampOf us ++ joinTexts us ++ footer

/-- The piece list of a batch starts with an atomic unit. -/
def headIsUnit (us : List PackPiece) : Prop :=
  ∃ pre u tl, us = PackPiece.unit pre u :: tl

/-- Relation between the packer's running buffer and the pieces it holds:
either nothing has been placed yet and the buffer is the bare base header,
or the buffer is the re-stamp prefix of its first unit followed by the
texts of its pieces. -/
def CurRep (bh : String) (st : PackState) (cs : List PackPiece) : Prop :=
  (cs = [] ∧ st.current = bh ∧ st.hasContent = false) ∨
  (headIsUnit cs ∧ st.current = stampOf cs ++ joinTexts cs ∧ st.hasContent = true)

/-! ## Theorems -/

theorem utf8Len_append (s t : String) :
    utf8Len (s ++ t) = utf8Len s + utf8Len t := by
  have hgen : ∀ (l : List Char) (n : Nat),
      l.foldl (fun a c => a + c.utf8Size) n = n + l.foldl (fun a c => a + c.utf8Size) 0 := by
    intro l
    induction l with
    | nil => intro n; simp
    | cons c cs ih =>
      intro n
      simp only [List.foldl_cons]
      rw [ih (n + c.utf8Size), ih (0 + c.utf8Size)]
      omega
  unfold utf8Len
  rw [String.data_append, List.foldl_append, hgen t.data]

theorem cleanupToday_of_nonneg {r : Int} (f : RecordFile) (h : 0 ≤ r) :
    cleanupToday r f = f := by
  unfold cleanupToday
  rw [if_neg]
  omega

/-- C9: `has_pushed_today` fails open — a missing record file and an
unreadable/unparsable record file are both treated as "not yet pushed
today" (the read error is caught, never re-raised to the caller). -/
theorem hasPushedToday_fail_open :
    hasPushedToday RecordFile.missing = false ∧
    hasPushedToday RecordFile.unreadable = false :=
  ⟨rfl, rfl⟩

/-- C1: the push gate of `send_to_notifications` lets delivery proceed iff
the push window is disabled, or the current time-of-day (normalized to
`HH:MM`) lies within `[start, end]` inclusive and — when once-per-day is
enabled — no persisted record for today has `pushed = true`. -/
theorem pushGate_allow_contract (cfg : PushWindowConfig) (ch : ChannelConfig)
    (env : SendEnv) (hret : 0 ≤ cfg.retentionDays) :
    (sendToNotifications cfg ch env).proceeded = true ↔
      (cfg.enabled = false ∨
        (strLe (normalizeTime cfg.startTime) (normalizeTime env.nowHM) = true ∧
         strLe (normalizeTime env.nowHM) (normalizeTime cfg.endTime) = true ∧
         (cfg.oncePerDay = true → hasPushedToday env.todayRecord = false))) := by
  have hc : cleanupToday cfg.retentionDays env.todayRecord = env.todayRecord :=
    cleanupToday_of_nonneg _ hret
  unfold sendToNotifications isInTimeRange
  rw [hc]
  cases he : cfg.enabled <;> cases ho : cfg.oncePerDay <;>
    cases hp : hasPushedToday env.todayRecord <;>
    cases h1 : strLe (normalizeTime cfg.startTime) (normalizeTime env.nowHM) <;>
    cases h2 : strLe (normalizeTime env.nowHM) (normalizeTime cfg.endTime) <;>
    by_cases ha : (channelResults ch env).any (fun p => p.2) = true <;>
    simp [h1, h2, ha]

/-- Closed instance of `pushGate_allow_contract`: with the window disabled
the gate allows even though today's record says `pushed = true`. -/
theorem pushGate_allow_contract_witness :
    (sendToNotifications ⟨false, "08:00", "20:00", true, 3⟩ ⟨true, false⟩
        ⟨"12:00", RecordFile.parsed (some true), true, false⟩).proceeded = true :=
  (pushGate_allow_contract _ _ _ (by decide)).mpr (Or.inl rfl)

/-- C10: today's push-record file is written exactly when the push window
is enabled, once-per-day is enabled, and at least one delivery channel
reported success; in every other case the record file is left unchanged —
in particular a fully successful send with once-per-day disabled persists
nothing. -/
theorem pushRecord_frame_effect (cfg : PushWindowConfig) (ch : ChannelConfig)
    (env : SendEnv) (hret : 0 ≤ cfg.retentionDays) :
    ((sendToNotifications cfg ch env).recordWritten = true ↔
      (cfg.enabled = true ∧ cfg.oncePerDay = true ∧
        ((sendToNotifications cfg ch env).results.any (fun p => p.2)) = true)) ∧
    ((sendToNotifications cfg ch env).recordWritten = false →
      (sendToNotifications cfg ch env).finalRecord = env.todayRecord) ∧
    (cfg.oncePerDay = false →
      (sendToNotifications cfg ch env).finalRecord = env.todayRecord) := by
  have hc : cleanupToday cfg.retentionDays env.todayRecord = env.todayRecord :=
    cleanupToday_of_nonneg _ hret
  unfold sendToNotifications isInTimeRange
  rw [hc]
  cases he : cfg.enabled <;> cases ho : cfg.oncePerDay <;>
    cases hp : hasPushedToday env.todayRecord <;>
    cases h1 : strLe (normalizeTime cfg.startTime) (normalizeTime env.nowHM) <;>
    cases h2 : strLe (normalizeTime env.nowHM) (normalizeTime cfg.endTime) <;>
    by_cases ha : (channelResults ch env).any (fun p => p.2) = true <;>
    simp [h1, h2, ha]

/-- Closed instance of `pushRecord_frame_effect`: a successful telegram
send with once-per-day disabled leaves today's record file unchanged. -/
theorem pushRecord_frame_effect_witness :
    (sendToNotifications ⟨true, "00:00", "23:59", false, 3⟩ ⟨true, true⟩
        ⟨"12:00", RecordFile.missing, true, true⟩).finalRecord =
      RecordFile.missing :=
  (pushRecord_frame_effect _ _ _ (by decide)).2.2 rfl

/-! ### Association-list lemmas for the statistics loops -/

theorem setAssoc_keys {β : Type} (k : String) (v : β) :
    ∀ l : List (String × β),
      (setAssoc k v l).map Prod.fst =
        if k ∈ l.map Prod.fst then l.map Prod.fst else l.map Prod.fst ++ [k]
  | [] => by simp [setAssoc]
  | p :: ps => by
    by_cases h : p.1 = k
    · subst h
      simp [setAssoc]
    · have hne : (p.1 == k) = false := beq_eq_false_iff_ne.mpr h
      have hne' : ¬ k = p.1 := fun hh => h hh.symm
      simp only [setAssoc, hne, Bool.false_eq_true, if_false, List.map_cons,
        List.mem_cons, setAssoc_keys k v ps]
      by_cases hm : k ∈ ps.map Prod.fst <;> simp [hm, hne']

theorem mem_setAssoc {β : Type} (k : String) (v : β) :
    ∀ l : List (String × β), ∀ q ∈ setAssoc k v l, q = (k, v) ∨ q ∈ l
  | [] => by simp [setAssoc]
  | p :: ps => by
    intro q hq
    by_cases h : p.1 = k
    · subst h
      simp only [setAssoc, beq_self_eq_true, if_true, List.mem_cons] at hq
      rcases hq with hq | hq
      · exact Or.inl hq
      · exact Or.inr (List.mem_cons_of_mem _ hq)
    · have hne : (p.1 == k) = false := beq_eq_false_iff_ne.mpr h
      simp only [setAssoc, hne, Bool.false_eq_true, if_false, List.mem_cons] at hq
      rcases hq with hq | hq
      · exact Or.inr (by simp [hq])
      · rcases mem_setAssoc k v ps q hq with h' | h'
        · exact Or.inl h'
        · exact Or.inr (List.mem_cons_of_mem _ h')

theorem lookup_addProcessed (sid t : String) :
    ∀ (pr : List (String × List String)) (sid' : String),
      List.lookup sid' (addProcessed sid t pr) =
        if sid' = sid then some (((List.lookup sid pr).getD []) ++ [t])
        else List.lookup sid' pr
  | [], sid' => by
    by_cases h : sid' = sid
    · subst h; simp [addProcessed, List.lookup]
    · simp [addProcessed, List.lookup, beq_eq_false_iff_ne.mpr h, h]
  | (k, v) :: ps, sid' => by
    by_cases h1 : k = sid
    · subst h1
      by_cases h2 : sid' = k
      · subst h2; simp [addProcessed, List.lookup]
      · simp [addProcessed, List.lookup, beq_eq_false_iff_ne.mpr h2, h2]
    · have hne : (k == sid) = false := beq_eq_false_iff_ne.mpr h1
      have hne2 : (sid == k) = false :=
        beq_eq_false_iff_ne.mpr (fun hh => h1 hh.symm)
      by_cases h2 : sid' = k
      · subst h2
        simp [addProcessed, hne, hne2, List.lookup, if_neg h1]
      · have h2' : (sid' == k) = false := beq_eq_false_iff_ne.mpr h2
        simp [addProcessed, hne, hne2, List.lookup, h2',
          lookup_addProcessed sid t ps sid']

theorem appendToSource_sum_countP (sid : String) (d : TitleDisplay)
    (p : TitleDisplay → Bool) :
    ∀ ls : List (String × List TitleDisplay),
      ((appendToSource sid d ls).map (fun r => r.2.countP p)).sum =
        (ls.map (fun r => r.2.countP p)).sum + (if p d then 1 else 0)
  | [] => by simp [appendToSource, List.countP_cons]
  | q :: qs => by
    by_cases h : q.1 = sid
    · subst h
      simp [appendToSource, List.countP_append, List.countP_cons]
      omega
    · have hne : (q.1 == sid) = false := beq_eq_false_iff_ne.mpr h
      simp only [appendToSource, hne, Bool.false_eq_true, if_false, List.map_cons,
        List.sum_cons, appendToSource_sum_countP sid d p qs]
      omega

theorem appendToSource_sum_length (sid : String) (d : TitleDisplay) :
    ∀ ls : List (String × List TitleDisplay),
      ((appendToSource sid d ls).map (fun r => r.2.length)).sum =
        (ls.map (fun r => r.2.length)).sum + 1
  | [] => by simp [appendToSource]
  | q :: qs => by
    by_cases h : q.1 = sid
    · subst h
      simp [appendToSource]
      omega
    · have hne : (q.1 == sid) = false := beq_eq_false_iff_ne.mpr h
      simp only [appendToSource, hne, Bool.false_eq_true, if_false, List.map_cons,
        List.sum_cons, appendToSource_sum_length sid d qs]
      omega

theorem mem_appendToSource (sid : String) (d : TitleDisplay) :
    ∀ (ls : List (String × List TitleDisplay)), ∀ r ∈ appendToSource sid d ls,
      ∀ dd ∈ r.2, (∃ r' ∈ ls, r'.1 = r.1 ∧ dd ∈ r'.2) ∨ (r.1 = sid ∧ dd = d)
  | [] => by
    intro r hr dd hdd
    simp [appendToSource] at hr
    subst hr
    simp at hdd
    exact Or.inr ⟨rfl, hdd⟩
  | q :: qs => by
    intro r hr dd hdd
    by_cases h : q.1 = sid
    · subst h
      simp only [appendToSource, beq_self_eq_true, if_true, List.mem_cons] at hr
      rcases hr with hr | hr
      · subst hr
        simp only at hdd
        rcases List.mem_append.mp hdd with hd | hd
        · exact Or.inl ⟨q, List.mem_cons_self _ _, rfl, hd⟩
        · simp at hd
          exact Or.inr ⟨rfl, hd⟩
      · exact Or.inl ⟨r, List.mem_cons_of_mem _ hr, rfl, hdd⟩
    · have hne : (q.1 == sid) = false := beq_eq_false_iff_ne.mpr h
      simp only [appendToSource, hne, Bool.false_eq_true, if_false, List.mem_cons] at hr
      rcases hr with hr | hr
      · subst hr
        exact Or.inl ⟨r, List.mem_cons_self _ _, rfl, hdd⟩
      · rcases mem_appendToSource sid d qs r hr dd hdd with ⟨r', hr', h1, h2⟩ | h'
        · exact Or.inl ⟨r', List.mem_cons_of_mem _ hr', h1, h2⟩
        · exact Or.inr h'

theorem find?_of_any {l : List WordGroup} {p : WordGroup → Bool} (b : Bool)
    (h : l.any p = true) : ∃ g, l.find? (fun g => b || p g) = some g := by
  cases b
  · induction l with
    | nil => simp at h
    | cons g gs ih =>
      cases hp : p g
      · simp only [List.any_cons, hp, Bool.false_or] at h
        rcases ih h with ⟨g', hg'⟩
        refine ⟨g', ?_⟩
        rw [List.find?_cons_of_neg _ (by simp [hp])]
        exact hg'
      · exact ⟨g, List.find?_cons_of_pos _ (by simp [hp])⟩
  · cases l with
    | nil => simp at h
    | cons g gs => exact ⟨g, List.find?_cons_of_pos _ (by simp)⟩

theorem buildDisplay_title (ctx : CountCtx) (sid t : String) (d : TitleData) :
    (buildDisplay ctx sid t d).title = t := rfl

theorem map_fst_of_fst_eq {α β γ : Type} (f : α × β → α × γ)
    (hf : ∀ q, (f q).1 = q.1) :
    ∀ l : List (α × β), (l.map f).map Prod.fst = l.map Prod.fst
  | [] => rfl
  | q :: qs => by
    rw [List.map_cons, List.map_cons, List.map_cons, hf,
      map_fst_of_fst_eq f hf qs]

theorem map_update_keys (k sid : String) (dd : TitleDisplay)
    (ws : List (String × GroupStat)) :
    (ws.map (fun q => if q.1 == k then
        (q.1, { count := q.2.count + 1
                titles := appendToSource sid dd q.2.titles : GroupStat }) else q)).map
      Prod.fst = ws.map Prod.fst := by
  refine map_fst_of_fst_eq _ (fun q => ?_) ws
  by_cases h : (q.1 == k) = true
  · rw [if_pos h]
  · rw [if_neg h]

theorem map_update_not_mem (k sid : String) (dd : TitleDisplay) :
    ∀ ws : List (String × GroupStat), k ∉ ws.map Prod.fst →
      ws.map (fun q => if q.1 == k then
          (q.1, { count := q.2.count + 1
                  titles := appendToSource sid dd q.2.titles : GroupStat }) else q) = ws
  | [] => by simp
  | q :: qs => by
    intro hk
    simp only [List.map_cons, List.mem_cons] at hk
    push_neg at hk
    have h1 : (q.1 == k) = false := beq_eq_false_iff_ne.mpr (fun hh => hk.1 hh.symm)
    simp only [List.map_cons, h1, Bool.false_eq_true, if_false,
      map_update_not_mem k sid dd qs hk.2]

theorem occW_cons (q : String × GroupStat) (ws : List (String × GroupStat)) (t : String) :
    occW (q :: ws) t =
      (q.2.titles.map (fun r => r.2.countP (fun dd => dd.title == t))).sum + occW ws t := by
  simp [occW]

theorem occW_map_update (k sid : String) (dd : TitleDisplay) (t : String) :
    ∀ ws : List (String × GroupStat), (ws.map Prod.fst).Nodup → k ∈ ws.map Prod.fst →
      occW (ws.map (fun q => if q.1 == k then
          (q.1, { count := q.2.count + 1
                  titles := appendToSource sid dd q.2.titles : GroupStat }) else q)) t
        = occW ws t + (if dd.title == t then 1 else 0)
  | [] => by simp
  | q :: qs => by
    intro hn hk
    simp only [List.map_cons, List.nodup_cons] at hn
    by_cases h : q.1 == k
    · have hk' : k ∉ qs.map Prod.fst := by
        have : q.1 = k := beq_iff_eq.mp h
        rw [← this]; exact hn.1
      simp only [List.map_cons, h, if_true]
      rw [map_update_not_mem k sid dd qs hk', occW_cons, occW_cons,
        appendToSource_sum_countP]
      omega
    · have hk2 : k ∈ qs.map Prod.fst := by
        rcases List.mem_cons.mp hk with h' | h'
        · exact absurd (beq_iff_eq.mpr h'.symm) (by simp [h])
        · exact h'
      simp only [List.map_cons, h, Bool.false_eq_true, if_false]
      rw [occW_cons, occW_cons, occW_map_update k sid dd t qs hn.2 hk2]
      omega

theorem matchesWordGroups_elim {t : String} {wgs : List WordGroup} {fws : List String}
    (hwg : wgs ≠ []) (h : matchesWordGroups t wgs fws = true) :
    wgs.any (fun g => groupMatches (lowerStr t) g) = true := by
  unfold matchesWordGroups at h
  by_cases h1 : pyStrip t = ""
  · rw [if_pos h1] at h; exact absurd h (by simp)
  · rw [if_neg h1, if_neg hwg] at h
    by_cases h2 : fws.any (fun w => subStr (lowerStr t) (lowerStr w)) = true
    · rw [if_pos h2] at h; exact absurd h (by simp)
    · rw [if_neg h2] at h; exact h

theorem processTitle_spec (ctx : CountCtx) (input : Results) (sid : String)
    (st : CountState) (p : String × TitleData)
    (hwg : ctx.wordGroups ≠ [])
    (hinv : LoopInv ctx input st)
    (hmem : pairMem input sid p.1 p.2) :
    LoopInv ctx input (processTitle ctx sid st p) ∧
    (∀ sid', sid' ≠ sid →
      List.lookup sid' (processTitle ctx sid st p).processed =
        List.lookup sid' st.processed) ∧
    (∀ t, memoHas (processTitle ctx sid st p) sid t =
      (memoHas st sid t ||
        ((eligible ctx p.1 && (p.1 == t)) && !(memoHas st sid p.1)))) ∧
    (∀ t, occW (processTitle ctx sid st p).wordStats t =
      occW st.wordStats t +
        (if eligible ctx p.1 = true ∧ memoHas st sid p.1 = false ∧ p.1 = t then 1
         else 0)) ∧
    (processTitle ctx sid st p).totalTitles = st.totalTitles := by
  unfold processTitle
  by_cases hm : ((List.lookup sid st.processed).getD []).contains p.1
  · rw [if_pos hm]
    have hmemo : memoHas st sid p.1 = true := hm
    refine ⟨hinv, fun _ _ => rfl, fun t => ?_, fun t => ?_, rfl⟩
    · rw [hmemo]; simp
    · rw [hmemo]; simp
  · rw [if_neg hm]
    have hmemo : memoHas st sid p.1 = false := by
      simp only [memoHas]
      exact Bool.not_eq_true _ ▸ (by simpa using hm)
    by_cases he : matchesWordGroups p.1 ctx.wordGroups ctx.filterWords = true
    · rw [if_neg (by simp [he])]
      have helig : eligible ctx p.1 = true := he
      rcases find?_of_any (allNewsSingleton ctx.wordGroups)
          (matchesWordGroups_elim hwg he) with ⟨g, hF⟩
      rw [hF]
      have hgmem : g ∈ ctx.wordGroups := List.mem_of_find?_eq_some hF
      have hkmem : g.groupKey ∈ st.wordStats.map Prod.fst := hinv.keysHave g hgmem
      refine ⟨?_, ?_, ?_, ?_, rfl⟩
      · constructor
        · rw [map_update_keys]; exact hinv.keysNodup
        · intro g' hg'
          rw [map_update_keys]; exact hinv.keysHave g' hg'
        · intro q hq
          rcases List.mem_map.mp hq with ⟨q0, hq0, hq0e⟩
          by_cases hqk : q0.1 == g.groupKey
          · rw [if_pos hqk] at hq0e
            subst hq0e
            simp only
            rw [appendToSource_sum_length]
            have := hinv.cntEq q0 hq0
            omega
          · rw [if_neg (by simp_all)] at hq0e
            subst hq0e
            exact hinv.cntEq q0 hq0
        · intro q hq r hr dd hdd
          rcases List.mem_map.mp hq with ⟨q0, hq0, hq0e⟩
          by_cases hqk : q0.1 == g.groupKey
          · rw [if_pos hqk] at hq0e
            subst hq0e
            simp only at hr hdd ⊢
            rcases mem_appendToSource _ _ _ r hr dd hdd with ⟨r', hr', hre, hdd'⟩ | ⟨hrs, hde⟩
            · have := hinv.attr q0 hq0 r' hr' dd hdd'
              rw [← hre]
              exact this
            · rw [hrs, hde]
              constructor
              · refine ⟨p.2, ?_, ?_⟩
                · rw [buildDisplay_title]; exact hmem
                · rw [buildDisplay_title]
              · rw [buildDisplay_title]
                have : q0.1 = g.groupKey := beq_iff_eq.mp hqk
                rw [this]
                simp [findKey, hF]
          · rw [if_neg (by simp_all)] at hq0e
            subst hq0e
            exact hinv.attr q0 hq0 r hr dd hdd
      · intro sid' hne
        simp only
        rw [lookup_addProcessed, if_neg hne]
      · intro t
        simp only [memoHas] at hmemo ⊢
        rw [lookup_addProcessed, if_pos rfl]
        rw [helig, hmemo]
        simp only [Option.getD_some, Bool.true_and, Bool.not_false, Bool.and_true]
        by_cases hpt : p.1 = t
        · simp [hpt]
        · rw [beq_eq_false_iff_ne.mpr hpt]
          simp [Ne.symm hpt]
      · intro t
        simp only
        rw [occW_map_update g.groupKey sid _ t st.wordStats hinv.keysNodup hkmem]
        rw [buildDisplay_title]
        by_cases hpt : p.1 = t
        · rw [if_pos (beq_iff_eq.mpr hpt), if_pos ⟨helig, hmemo, hpt⟩]
        · rw [if_neg (by simp [hpt]), if_neg (fun hcon => hpt hcon.2.2)]
    · rw [if_pos (by simp [he])]
      have helig : eligible ctx p.1 = false := by
        simp only [eligible]
        exact Bool.not_eq_true _ ▸ (by simpa using he)
      refine ⟨hinv, fun _ _ => rfl, fun t => ?_, fun t => ?_, rfl⟩
      · rw [helig]; simp
      · rw [helig]; simp

theorem innerFold_spec (ctx : CountCtx) (input : Results) (sid : String)
    (hwg : ctx.wordGroups ≠ []) :
    ∀ (tm : TitleMap) (st : CountState), LoopInv ctx input st →
      (∀ p ∈ tm, pairMem input sid p.1 p.2) →
      LoopInv ctx input (tm.foldl (processTitle ctx sid) st) ∧
      (∀ sid', sid' ≠ sid →
        List.lookup sid' (tm.foldl (processTitle ctx sid) st).processed =
          List.lookup sid' st.processed) ∧
      (∀ t, memoHas (tm.foldl (processTitle ctx sid) st) sid t =
        (memoHas st sid t || (eligible ctx t && tm.any (fun p => p.1 == t)))) ∧
      (∀ t, occW (tm.foldl (processTitle ctx sid) st).wordStats t =
        occW st.wordStats t +
          (if eligible ctx t = true ∧ memoHas st sid t = false ∧
              tm.any (fun p => p.1 == t) = true then 1 else 0)) ∧
      (tm.foldl (processTitle ctx sid) st).totalTitles = st.totalTitles
  | [], st, hinv, _ => by
    refine ⟨hinv, fun _ _ => rfl, fun t => by simp, fun t => by simp, rfl⟩
  | p :: tm', st, hinv, hpm => by
    have hps := processTitle_spec ctx input sid st p hwg hinv
      (hpm p (List.mem_cons_self _ _))
    have ih := innerFold_spec ctx input sid hwg tm' (processTitle ctx sid st p)
      hps.1 (fun p' hp' => hpm p' (List.mem_cons_of_mem _ hp'))
    rw [List.foldl_cons]
    refine ⟨ih.1, ?_, ?_, ?_, ih.2.2.2.2.trans hps.2.2.2.2⟩
    · intro sid' hne
      exact (ih.2.1 sid' hne).trans (hps.2.1 sid' hne)
    · intro t
      rw [ih.2.2.1 t, hps.2.2.1 t, List.any_cons]
      by_cases hpt : p.1 = t
      · subst hpt
        cases hE : eligible ctx p.1 <;> cases hM : memoHas st sid p.1 <;>
          simp [hE, hM]
      · rw [beq_eq_false_iff_ne.mpr hpt]
        simp
    · intro t
      rw [ih.2.2.2.1 t, hps.2.2.2.1 t, hps.2.2.1 t, List.any_cons]
      by_cases hpt : p.1 = t
      · subst hpt
        cases hE : eligible ctx p.1 <;> cases hM : memoHas st sid p.1 <;>
          cases hA : tm'.any (fun q => q.1 == p.1) <;>
          simp [hE, hM, hA]
      · rw [beq_eq_false_iff_ne.mpr hpt]
        have h1 : ¬(eligible ctx p.1 = true ∧ memoHas st sid p.1 = false ∧ p.1 = t) :=
          fun hc => hpt hc.2.2
        rw [if_neg h1, Nat.add_zero]
        exact congrArg (fun n => occW st.wordStats t + n)
          (if_congr (by simp) rfl rfl)

theorem outerFold_spec (ctx : CountCtx) (input : Results)
    (hwg : ctx.wordGroups ≠ []) :
    ∀ (srcs : List (String × TitleMap)) (st : CountState), LoopInv ctx input st →
      (∀ q ∈ srcs, ∀ p ∈ q.2, pairMem input q.1 p.1 p.2) →
      (srcs.map Prod.fst).Nodup →
      (∀ q ∈ srcs, List.lookup q.1 st.processed = none) →
      LoopInv ctx input (srcs.foldl (processSource ctx) st) ∧
      (∀ t, occW (srcs.foldl (processSource ctx) st).wordStats t =
        occW st.wordStats t +
          (if eligible ctx t = true then
            (srcs.filter (fun q => q.2.any (fun p => p.1 == t))).length else 0))
  | [], st, hinv, _, _, _ => ⟨hinv, fun t => by simp⟩
  | q :: srcs', st, hinv, hpm, hnd, hfresh => by
    have hmemoNone : ∀ t, memoHas st q.1 t = false := by
      intro t
      simp [memoHas, hfresh q (List.mem_cons_self _ _)]
    have hinv0 : LoopInv ctx input
        { st with totalTitles := st.totalTitles + q.2.length } :=
      ⟨hinv.keysNodup, hinv.keysHave, hinv.cntEq, hinv.attr⟩
    have inner := innerFold_spec ctx input q.1 hwg q.2
      { st with totalTitles := st.totalTitles + q.2.length } hinv0
      (fun p hp => hpm q (List.mem_cons_self _ _) p hp)
    simp only [List.map_cons, List.nodup_cons] at hnd
    have hq1not : q.1 ∉ srcs'.map Prod.fst := hnd.1
    have hfresh' : ∀ q' ∈ srcs',
        List.lookup q'.1 (processSource ctx st q).processed = none := by
      intro q' hq'
      have hne : q'.1 ≠ q.1 := fun hh =>
        hq1not (hh ▸ List.mem_map.mpr ⟨q', hq', rfl⟩)
      have := inner.2.1 q'.1 hne
      unfold processSource
      rw [this]
      exact hfresh q' (List.mem_cons_of_mem _ hq')
    have hinner1 : LoopInv ctx input (processSource ctx st q) := inner.1
    have ihres := outerFold_spec ctx input hwg srcs' (processSource ctx st q)
      hinner1
      (fun q' hq' p hp => hpm q' (List.mem_cons_of_mem _ hq') p hp)
      hnd.2 hfresh'
    rw [List.foldl_cons]
    refine ⟨ihres.1, fun t => ?_⟩
    rw [ihres.2 t]
    have hmemoNone0 : ∀ t',
        memoHas { st with totalTitles := st.totalTitles + q.2.length } q.1 t' = false :=
      fun t' => hmemoNone t'
    have hocc : occW (processSource ctx st q).wordStats t =
        occW st.wordStats t +
          (if eligible ctx t = true ∧
              q.2.any (fun p => p.1 == t) = true then 1 else 0) := by
      unfold processSource
      rw [inner.2.2.2.1 t]
      rw [hmemoNone0 t]
      have hbase :
          occW ({ st with totalTitles := st.totalTitles + q.2.length } :
            CountState).wordStats t = occW st.wordStats t := rfl
      rw [hbase]
      by_cases hE : eligible ctx t = true
      · by_cases hA : q.2.any (fun p => p.1 == t) = true
        · rw [if_pos ⟨hE, rfl, hA⟩, if_pos ⟨hE, hA⟩]
        · rw [if_neg (fun hc => hA hc.2.2), if_neg (fun hc => hA hc.2)]
      · rw [if_neg (fun hc => hE hc.1), if_neg (fun hc => hE hc.1)]
    rw [hocc, List.filter_cons]
    cases hE : eligible ctx t <;> cases hA : q.2.any (fun p => p.1 == t) <;>
      simp [hE, hA] <;> omega

theorem foldl_setAssoc_spec (v : GroupStat) :
    ∀ (wgs : List WordGroup) (acc : List (String × GroupStat)),
      (acc.map Prod.fst).Nodup → (∀ q ∈ acc, q.2 = v) →
      ((wgs.foldl (fun m g => setAssoc g.groupKey v m) acc).map Prod.fst).Nodup ∧
      (∀ x ∈ acc.map Prod.fst,
        x ∈ (wgs.foldl (fun m g => setAssoc g.groupKey v m) acc).map Prod.fst) ∧
      (∀ g ∈ wgs,
        g.groupKey ∈ (wgs.foldl (fun m g => setAssoc g.groupKey v m) acc).map Prod.fst) ∧
      (∀ q ∈ wgs.foldl (fun m g => setAssoc g.groupKey v m) acc, q.2 = v)
  | [], acc, hnd, hval => ⟨hnd, fun x hx => hx, by simp, hval⟩
  | g :: wgs', acc, hnd, hval => by
    have hkeys := setAssoc_keys g.groupKey v acc
    have hnd1 : ((setAssoc g.groupKey v acc).map Prod.fst).Nodup := by
      rw [hkeys]
      by_cases hin : g.groupKey ∈ acc.map Prod.fst
      · rw [if_pos hin]; exact hnd
      · rw [if_neg hin]
        rw [List.nodup_append]
        exact ⟨hnd, List.nodup_singleton _,
          fun x hx hx' => hin ((List.mem_singleton.mp hx') ▸ hx)⟩
    have hval1 : ∀ q ∈ setAssoc g.groupKey v acc, q.2 = v := by
      intro q hq
      rcases mem_setAssoc g.groupKey v acc q hq with h | h
      · rw [h]
      · exact hval q h
    have ih := foldl_setAssoc_spec v wgs' (setAssoc g.groupKey v acc) hnd1 hval1
    have hmono : ∀ x ∈ acc.map Prod.fst,
        x ∈ (setAssoc g.groupKey v acc).map Prod.fst := by
      intro x hx
      rw [hkeys]
      by_cases hin : g.groupKey ∈ acc.map Prod.fst
      · rw [if_pos hin]; exact hx
      · rw [if_neg hin]; exact List.mem_append_left _ hx
    have hself : g.groupKey ∈ (setAssoc g.groupKey v acc).map Prod.fst := by
      rw [hkeys]
      by_cases hin : g.groupKey ∈ acc.map Prod.fst
      · rw [if_pos hin]; exact hin
      · rw [if_neg hin]; exact List.mem_append_right _ (List.mem_singleton_self _)
    rw [List.foldl_cons]
    refine ⟨ih.1, ?_, ?_, ih.2.2.2⟩
    · intro x hx
      exact ih.2.1 x (hmono x hx)
    · intro g' hg'
      rcases List.mem_cons.mp hg' with h | h
      · subst h
        exact ih.2.1 g'.groupKey hself
      · exact ih.2.2.1 g' h

theorem occW_of_const_empty (t : String) :
    ∀ ws : List (String × GroupStat),
      (∀ q ∈ ws, q.2 = ({ count := 0, titles := [] } : GroupStat)) → occW ws t = 0
  | [], _ => rfl
  | q :: qs, h => by
    rw [occW_cons, h q (List.mem_cons_self _ _),
      occW_of_const_empty t qs (fun q' hq' => h q' (List.mem_cons_of_mem _ hq'))]
    simp

theorem insertSorted_perm {α : Type} (le : α → α → Bool) (x : α) :
    ∀ l : List α, (insertSorted le x l).Perm (x :: l)
  | [] => List.Perm.refl _
  | y :: ys => by
    unfold insertSorted
    by_cases h : le x y = true
    · rw [if_pos h]
    · rw [if_neg h]
      exact ((insertSorted_perm le x ys).cons y).trans (List.Perm.swap _ _ _)

theorem insertionSortBy_perm {α : Type} (le : α → α → Bool) :
    ∀ l : List α, (insertionSortBy le l).Perm l
  | [] => List.Perm.refl _
  | x :: xs =>
    (insertSorted_perm le x (insertionSortBy le xs)).trans
      ((insertionSortBy_perm le xs).cons x)

theorem flatten_countP (p : TitleDisplay → Bool) :
    ∀ (ls : List (String × List TitleDisplay)) (acc : List TitleDisplay),
      (ls.foldl (fun l q => l ++ q.2) acc).countP p =
        acc.countP p + (ls.map (fun r => r.2.countP p)).sum
  | [], acc => by simp
  | q :: qs, acc => by
    rw [List.foldl_cons, flatten_countP p qs (acc ++ q.2), List.countP_append]
    simp only [List.map_cons, List.sum_cons]
    omega

theorem flatten_mem :
    ∀ (ls : List (String × List TitleDisplay)) (acc : List TitleDisplay)
      (dd : TitleDisplay), dd ∈ ls.foldl (fun l q => l ++ q.2) acc →
      dd ∈ acc ∨ ∃ r ∈ ls, dd ∈ r.2
  | [], acc, dd => fun h => Or.inl h
  | q :: qs, acc, dd => by
    intro h
    rw [List.foldl_cons] at h
    rcases flatten_mem qs (acc ++ q.2) dd h with h' | ⟨r, hr, hdd⟩
    · rcases List.mem_append.mp h' with h'' | h''
      · exact Or.inl h''
      · exact Or.inr ⟨q, List.mem_cons_self _ _, h''⟩
    · exact Or.inr ⟨r, List.mem_cons_of_mem _ hr, hdd⟩

theorem occStats_perm {s1 s2 : List StatEntry} (h : s1.Perm s2) (t : String) :
    occStats s1 t = occStats s2 t := by
  unfold occStats
  exact (h.map _).sum_eq

theorem occStats_append (s1 s2 : List StatEntry) (t : String) :
    occStats (s1 ++ s2) t = occStats s1 t + occStats s2 t := by
  simp [occStats]

theorem bucket_occ_zero (q : String × GroupStat) (t : String)
    (hcnt : q.2.count = (q.2.titles.map (fun r => r.2.length)).sum)
    (h0 : ¬ q.2.count > 0) :
    (q.2.titles.map (fun r => r.2.countP (fun dd => dd.title == t))).sum = 0 := by
  have hle : (q.2.titles.map (fun r => r.2.countP (fun dd => dd.title == t))).sum ≤
      (q.2.titles.map (fun r => r.2.length)).sum := by
    apply List.sum_le_sum
    intro r _
    exact List.countP_le_length _
  omega

theorem finalize_build_occ (t : String) :
    ∀ (ws : List (String × GroupStat)) (acc : List StatEntry),
      (∀ q ∈ ws, q.2.count = (q.2.titles.map (fun r => r.2.length)).sum) →
      occStats (ws.foldl (fun acc p =>
        if p.2.count > 0 then
          acc ++ [{ word := p.1, count := p.2.count
                    titles := insertionSortBy titleSortLe
                      (p.2.titles.foldl (fun l q => l ++ q.2) []) }]
        else acc) acc) t = occStats acc t + occW ws t
  | [], acc, _ => by simp [occW]
  | q :: ws', acc, hcnt => by
    rw [List.foldl_cons]
    by_cases h0 : q.2.count > 0
    · rw [if_pos h0]
      rw [finalize_build_occ t ws' _ (fun q' hq' => hcnt q' (List.mem_cons_of_mem _ hq'))]
      rw [occStats_append, occW_cons]
      have hperm : (insertionSortBy titleSortLe
          (q.2.titles.foldl (fun l q => l ++ q.2) [])).Perm
            (q.2.titles.foldl (fun l q => l ++ q.2) []) :=
        insertionSortBy_perm _ _
      have hsingle : occStats [⟨q.1, q.2.count,
          insertionSortBy titleSortLe (q.2.titles.foldl (fun l q => l ++ q.2) [])⟩] t =
          (q.2.titles.map (fun r => r.2.countP (fun dd => dd.title == t))).sum := by
        simp only [occStats, List.map_cons, List.map_nil, List.sum_cons,
          List.sum_nil, Nat.add_zero]
        rw [hperm.countP_eq]
        rw [flatten_countP]
        simp
      rw [hsingle]
      omega
    · rw [if_neg h0]
      rw [finalize_build_occ t ws' acc (fun q' hq' => hcnt q' (List.mem_cons_of_mem _ hq'))]
      rw [occW_cons, bucket_occ_zero q t (hcnt q (List.mem_cons_self _ _)) h0]
      omega

theorem occStats_finalize (ws : List (String × GroupStat))
    (hcnt : ∀ q ∈ ws, q.2.count = (q.2.titles.map (fun r => r.2.length)).sum)
    (t : String) : occStats (finalizeStats ws) t = occW ws t := by
  unfold finalizeStats
  rw [occStats_perm (insertionSortBy_perm _ _) t]
  rw [finalize_build_occ t ws [] hcnt]
  simp [occStats]

theorem finalize_build_mem :
    ∀ (ws : List (String × GroupStat)) (acc : List StatEntry),
      ∀ st ∈ ws.foldl (fun acc p =>
        if p.2.count > 0 then
          acc ++ [{ word := p.1, count := p.2.count
                    titles := insertionSortBy titleSortLe
                      (p.2.titles.foldl (fun l q => l ++ q.2) []) }]
        else acc) acc,
        st ∈ acc ∨ ∃ q ∈ ws, st.word = q.1 ∧ st.count = q.2.count ∧
          ∀ dd ∈ st.titles, ∃ r ∈ q.2.titles, dd ∈ r.2
  | [], acc => fun st h => Or.inl h
  | q :: ws', acc => by
    intro st h
    rw [List.foldl_cons] at h
    by_cases h0 : q.2.count > 0
    · rw [if_pos h0] at h
      rcases finalize_build_mem ws' _ st h with h' | ⟨q', hq', h1, h2, h3⟩
      · rcases List.mem_append.mp h' with h'' | h''
        · exact Or.inl h''
        · refine Or.inr ⟨q, List.mem_cons_self _ _, ?_⟩
          rw [List.mem_singleton.mp h'']
          refine ⟨rfl, rfl, ?_⟩
          intro dd hdd
          simp only at hdd
          have hdd' : dd ∈ q.2.titles.foldl (fun l q => l ++ q.2) [] :=
            (insertionSortBy_perm _ _).mem_iff.mp hdd
          rcases flatten_mem q.2.titles [] dd hdd' with hc | hc
          · exact absurd hc (List.not_mem_nil _)
          · exact hc
      · exact Or.inr ⟨q', List.mem_cons_of_mem _ hq', h1, h2, h3⟩
    · rw [if_neg h0] at h
      rcases finalize_build_mem ws' acc st h with h' | ⟨q', hq', h1, h2, h3⟩
      · exact Or.inl h'
      · exact Or.inr ⟨q', List.mem_cons_of_mem _ hq', h1, h2, h3⟩

theorem finalize_mem (ws : List (String × GroupStat)) :
    ∀ st ∈ finalizeStats ws, ∃ q ∈ ws, st.word = q.1 ∧ st.count = q.2.count ∧
      ∀ dd ∈ st.titles, ∃ r ∈ q.2.titles, dd ∈ r.2 := by
  intro st hst
  unfold finalizeStats at hst
  have hst' := (insertionSortBy_perm _ _).mem_iff.mp hst
  rcases finalize_build_mem ws [] st hst' with h | h
  · exact absurd h (List.not_mem_nil _)
  · exact h

theorem matchesWordGroups_intro {t : String} {wgs : List WordGroup}
    {fws : List String} (ht : pyStrip t ≠ "") (hwg : wgs ≠ [])
    (hf : fws.any (fun w => subStr (lowerStr t) (lowerStr w)) = false)
    (hany : wgs.any (fun g => groupMatches (lowerStr t) g) = true) :
    matchesWordGroups t wgs fws = true := by
  unfold matchesWordGroups
  rw [if_neg ht, if_neg hwg, if_neg (by simp [hf])]
  exact hany

theorem findKey_eq_of_any (wgs : List WordGroup) (tl : String)
    (hany : wgs.any (fun g => groupMatches tl g) = true) :
    wgs.find? (fun g => allNewsSingleton wgs || groupMatches tl g) =
      wgs.find? (fun g => groupMatches tl g) := by
  cases hA : allNewsSingleton wgs
  · simp only [hA, Bool.false_or]
  · cases wgs with
    | nil => simp [allNewsSingleton] at hA
    | cons g tail =>
      cases tail with
      | nil =>
        simp only [List.any_cons, List.any_nil, Bool.or_false] at hany
        rw [List.find?_cons_of_pos _ (by simp), List.find?_cons_of_pos _ hany]
      | cons g2 tail2 => simp [allNewsSingleton] at hA

theorem countWordFrequency_daily (results : Results) (wordGroups : List WordGroup)
    (filterWords : List String) (idToName : List (String × String))
    (titleInfo : Ledger) (rankThreshold : Int) (newTitles : Results)
    (isFirstToday : Bool) (hwg : wordGroups ≠ []) :
    countWordFrequency results wordGroups filterWords idToName titleInfo
        rankThreshold newTitles "daily" isFirstToday =
      ((finalizeStats (results.foldl (processSource
          { wordGroups := wordGroups, filterWords := filterWords, idToName := idToName
            titleInfo := titleInfo, newTitles := newTitles
            allNewsAreNew := false, rankThreshold := rankThreshold })
          { wordStats := wordGroups.foldl
              (fun m g => setAssoc g.groupKey { count := 0, titles := [] } m) []
            totalTitles := 0, processed := [] }).wordStats),
       ((results.foldl (processSource
          { wordGroups := wordGroups, filterWords := filterWords, idToName := idToName
            titleInfo := titleInfo, newTitles := newTitles
            allNewsAreNew := false, rankThreshold := rankThreshold })
          { wordStats := wordGroups.foldl
              (fun m g => setAssoc g.groupKey { count := 0, titles := [] } m) []
            totalTitles := 0, processed := [] }).totalTitles)) := by
  unfold countWordFrequency
  rw [if_neg hwg, if_neg hwg]
  simp only [String.reduceEq, if_false, decide_eq_true_eq, decide_False]

theorem countWordFrequency_current (results : Results) (wordGroups : List WordGroup)
    (filterWords : List String) (idToName : List (String × String))
    (titleInfo : Ledger) (rankThreshold : Int) (newTitles : Results)
    (isFirstToday : Bool) (hwg : wordGroups ≠ []) :
    countWordFrequency results wordGroups filterWords idToName titleInfo
        rankThreshold newTitles "current" isFirstToday =
      ((finalizeStats ((currentScope results titleInfo).foldl (processSource
          { wordGroups := wordGroups, filterWords := filterWords, idToName := idToName
            titleInfo := titleInfo, newTitles := newTitles
            allNewsAreNew := false, rankThreshold := rankThreshold })
          { wordStats := wordGroups.foldl
              (fun m g => setAssoc g.groupKey { count := 0, titles := [] } m) []
            totalTitles := 0, processed := [] }).wordStats),
       (((currentScope results titleInfo).foldl (processSource
          { wordGroups := wordGroups, filterWords := filterWords, idToName := idToName
            titleInfo := titleInfo, newTitles := newTitles
            allNewsAreNew := false, rankThreshold := rankThreshold })
          { wordStats := wordGroups.foldl
              (fun m g => setAssoc g.groupKey { count := 0, titles := [] } m) []
            totalTitles := 0, processed := [] }).totalTitles)) := by
  unfold countWordFrequency
  rw [if_neg hwg, if_neg hwg]
  simp only [String.reduceEq, if_false, if_true, decide_eq_true_eq, decide_False]

theorem initState_inv (ctx : CountCtx) (input : Results)
    (hspec : ∀ q ∈ ctx.wordGroups.foldl
        (fun m g => setAssoc g.groupKey ({ count := 0, titles := [] } : GroupStat) m) [],
      q.2 = ({ count := 0, titles := [] } : GroupStat)) :
    LoopInv ctx input
      { wordStats := ctx.wordGroups.foldl
          (fun m g => setAssoc g.groupKey { count := 0, titles := [] } m) []
        totalTitles := 0, processed := [] } := by
  have h := foldl_setAssoc_spec { count := 0, titles := [] } ctx.wordGroups []
    (by simp) (by simp)
  refine ⟨h.1, h.2.2.1, ?_, ?_⟩
  · intro q hq
    rw [hspec q hq]
    simp
  · intro q hq r hr dd hdd
    rw [hspec q hq] at hr
    exact absurd hr (List.not_mem_nil _)

/-- C8 (as stated) is falsified by a blank title: with no word-groups
configured and no filter words, the empty title still does not match,
because `matches_word_groups` rejects stripped-empty titles first. -/
theorem emptyGroups_fallback_counterexample :
    matchesWordGroups "" [] [] = false := by decide

/-- C8 (amended): for every title whose stripped content is nonempty and
every filter-word list, matching with an empty word-group configuration
returns true — the filter words cannot reject it. -/
theorem emptyGroups_fallback (title : String) (filterWords : List String)
    (ht : pyStrip title ≠ "") : matchesWordGroups title [] filterWords = true := by
  unfold matchesWordGroups
  rw [if_neg ht, if_pos rfl]

/-- Closed instance of `emptyGroups_fallback`: the title even contains the
filter word `"b"`, yet the empty-groups fallback still matches it. -/
theorem emptyGroups_fallback_witness : matchesWordGroups "abc" [] ["b"] = true :=
  emptyGroups_fallback "abc" ["b"] (by decide)

/-- C6 (amended): a non-blank title that passes the filter words and
satisfies at least one configured word-group is counted exactly once per
source containing it (the memo makes each title processed at most once per
source), and every display of it sits in the statistics entry of the
earliest matching group in configured order. -/
theorem first_match_wins_unique_count
    (results : Results) (wordGroups : List WordGroup) (filterWords : List String)
    (idToName : List (String × String)) (titleInfo : Ledger) (rankThreshold : Int)
    (newTitles : Results) (isFirstToday : Bool) (title : String)
    (hnd : (results.map Prod.fst).Nodup)
    (ht : pyStrip title ≠ "")
    (hfilt : filterWords.any (fun w => subStr (lowerStr title) (lowerStr w)) = false)
    (hgrp : wordGroups.any (fun g => groupMatches (lowerStr title) g) = true) :
    occStats (countWordFrequency results wordGroups filterWords idToName titleInfo
        rankThreshold newTitles "daily" isFirstToday).1 title =
      (results.filter (fun q => q.2.any (fun p => p.1 == title))).length ∧
    ∀ st ∈ (countWordFrequency results wordGroups filterWords idToName titleInfo
        rankThreshold newTitles "daily" isFirstToday).1,
      ∀ dd ∈ st.titles, dd.title = title →
        ∃ g, wordGroups.find? (fun g => groupMatches (lowerStr title) g) = some g ∧
          st.word = g.groupKey := by
  have hwg : wordGroups ≠ [] := by
    intro hc
    rw [hc] at hgrp
    simp at hgrp
  rw [countWordFrequency_daily results wordGroups filterWords idToName titleInfo
    rankThreshold newTitles isFirstToday hwg]
  set ctx : CountCtx :=
    { wordGroups := wordGroups, filterWords := filterWords, idToName := idToName
      titleInfo := titleInfo, newTitles := newTitles
      allNewsAreNew := false, rankThreshold := rankThreshold } with hctxdef
  set init : CountState :=
    { wordStats := wordGroups.foldl
        (fun m g => setAssoc g.groupKey { count := 0, titles := [] } m) []
      totalTitles := 0, processed := [] } with hinitdef
  have hsetspec := foldl_setAssoc_spec { count := 0, titles := [] } wordGroups []
    (by simp) (by simp)
  have hctxwg : ctx.wordGroups ≠ [] := hwg
  have hinv : LoopInv ctx results init := initState_inv ctx results hsetspec.2.2.2
  have helig : eligible ctx title = true := matchesWordGroups_intro ht hwg hfilt hgrp
  have houter := outerFold_spec ctx results hctxwg results init hinv
    (fun q hq p hp => ⟨q.2, (by simpa using hq : (q.1, q.2) ∈ results), hp⟩)
    hnd (fun q _ => rfl)
  constructor
  · rw [occStats_finalize _ houter.1.cntEq title, houter.2 title,
      occW_of_const_empty title init.wordStats hsetspec.2.2.2, if_pos helig,
      Nat.zero_add]
  · intro st hst dd hdd hddt
    rcases finalize_mem _ st hst with ⟨q, hq, hword, _, htitles⟩
    rcases htitles dd hdd with ⟨r, hr, hddr⟩
    have hattr := (houter.1.attr q hq r hr dd hddr).2
    rw [hddt] at hattr
    unfold findKey at hattr
    simp only [hctxdef] at hattr
    rw [findKey_eq_of_any wordGroups (lowerStr title) hgrp] at hattr
    rcases Option.map_eq_some'.mp hattr with ⟨g, hfind, hkey⟩
    exact ⟨g, hfind, by rw [hword, ← hkey]⟩

/-- C6 as stated fails for a blank title: the empty title satisfies the
configured group (no required and no normal words) and passes the empty
filter list, yet the engine counts it zero times instead of once, because
the unified match check rejects stripped-empty titles first. -/
theorem first_match_wins_counterexample :
    groupMatches (lowerStr "") { required := [], normal := [], groupKey := "k" } = true ∧
    occStats (countWordFrequency
        [("s", [("", (⟨[1], "", ""⟩ : TitleData))])]
        [{ required := [], normal := [], groupKey := "k" }]
        [] [] [] 5 [] "daily" false).1 "" = 0 := by
  decide

/-- Closed instance of `first_match_wins_unique_count`: "ab" satisfies both
group "A" (earlier) and group "B" (later) and is counted once per source. -/
theorem first_match_wins_witness :
    occStats (countWordFrequency
        [("s1", [("ab", (⟨[3], "", ""⟩ : TitleData))]),
         ("s2", [("ab", (⟨[2], "", ""⟩ : TitleData))])]
        [{ required := [], normal := ["a"], groupKey := "A" },
         { required := [], normal := ["b"], groupKey := "B" }]
        [] [] [] 5 [] "daily" false).1 "ab" =
      ([("s1", [("ab", (⟨[3], "", ""⟩ : TitleData))]),
        ("s2", [("ab", (⟨[2], "", ""⟩ : TitleData))])].filter
        (fun q => q.2.any (fun p => p.1 == "ab"))).length :=
  (first_match_wins_unique_count _ _ _ _ _ _ _ _ _ (by decide) (by decide) (by decide)
    (by decide)).1

theorem char_toNat_inj {a b : Char} (h : a.toNat = b.toNat) : a = b := by
  refine Char.ext ?_
  have h' := h
  unfold Char.toNat at h'
  exact UInt32.toNat.inj h'

theorem listLexLe_refl : ∀ a, listLexLe a a = true
  | [] => rfl
  | c :: cs => by simp [listLexLe, listLexLe_refl cs]

theorem listLexLe_of_lt : ∀ a b, listLexLt a b = true → listLexLe a b = true
  | [], [] => by simp [listLexLt]
  | [], _ :: _ => fun _ => rfl
  | _ :: _, [] => by simp [listLexLt]
  | a :: as, b :: bs => by
    intro h
    simp only [listLexLt, Bool.or_eq_true, Bool.and_eq_true] at h
    simp only [listLexLe, Bool.or_eq_true, Bool.and_eq_true]
    rcases h with h | ⟨h1, h2⟩
    · exact Or.inl h
    · exact Or.inr ⟨h1, listLexLe_of_lt as bs h2⟩

theorem listLexLe_of_not_lt : ∀ a b, listLexLt a b = false → listLexLe b a = true
  | [], [] => fun _ => rfl
  | [], _ :: _ => by simp [listLexLt]
  | _ :: _, [] => fun _ => rfl
  | a :: as, b :: bs => by
    intro h
    simp only [listLexLt, Bool.or_eq_false_iff] at h
    simp only [listLexLe, Bool.or_eq_true, Bool.and_eq_true, beq_iff_eq]
    rcases h with ⟨hlt, hand⟩
    by_cases hab : a = b
    · subst hab
      have h2 : listLexLt as bs = false := by
        rcases Bool.and_eq_false_iff.mp hand with h' | h'
        · exact absurd h' (by simp)
        · exact h'
      exact Or.inr ⟨rfl, listLexLe_of_not_lt as bs h2⟩
    · have hne : a.toNat ≠ b.toNat := fun hc => hab (char_toNat_inj hc)
      have : b.toNat < a.toNat := by
        simp only [decide_eq_false_iff_not] at hlt
        omega
      exact Or.inl (by simpa using this)

theorem listLexLe_trans : ∀ a b c,
    listLexLe a b = true → listLexLe b c = true → listLexLe a c = true
  | [], _, _ => fun _ _ => rfl
  | _ :: _, [], _ => by simp [listLexLe]
  | _ :: _, _ :: _, [] => by simp [listLexLe]
  | a :: as, b :: bs, c :: cs => by
    intro h1 h2
    simp only [listLexLe, Bool.or_eq_true, Bool.and_eq_true, beq_iff_eq,
      decide_eq_true_eq] at h1 h2 ⊢
    rcases h1 with h1 | ⟨hab, h1⟩ <;> rcases h2 with h2 | ⟨hbc, h2⟩
    · exact Or.inl (Nat.lt_trans h1 h2)
    · subst hbc
      exact Or.inl h1
    · subst hab
      exact Or.inl h2
    · subst hab
      subst hbc
      exact Or.inr ⟨rfl, listLexLe_trans as bs cs h1 h2⟩

theorem strLe_refl (a : String) : strLe a a = true := listLexLe_refl a.data

theorem strLe_of_lt {a b : String} (h : strLt a b = true) : strLe a b = true :=
  listLexLe_of_lt a.data b.data h

theorem strLe_of_not_lt {a b : String} (h : strLt a b = false) : strLe b a = true :=
  listLexLe_of_not_lt a.data b.data h

theorem strLe_trans {a b c : String} (h1 : strLe a b = true)
    (h2 : strLe b c = true) : strLe a c = true :=
  listLexLe_trans a.data b.data c.data h1 h2

theorem maxFold_spec : ∀ (ls : List String) (acc : Option String) (M : String),
    ls.foldl maxStep acc = some M →
    (acc = some M ∨ (M ∈ ls ∧ M ≠ "")) ∧
    (∀ x ∈ ls, x ≠ "" → strLe x M = true) ∧
    (∀ m0, acc = some m0 → strLe m0 M = true)
  | [], acc, M => by
    intro h
    simp only [List.foldl_nil] at h
    refine ⟨Or.inl h, by simp, fun m0 hm0 => ?_⟩
    rw [hm0] at h
    cases h
    exact strLe_refl _
  | x :: ls', acc, M => by
    intro h
    rw [List.foldl_cons] at h
    have ih := maxFold_spec ls' (maxStep acc x) M h
    by_cases hx : x = ""
    · have hstep : maxStep acc x = acc := by simp [maxStep, hx]
      rw [hstep] at ih
      refine ⟨?_, ?_, ih.2.2⟩
      · rcases ih.1 with h' | ⟨hm, hne⟩
        · exact Or.inl h'
        · exact Or.inr ⟨List.mem_cons_of_mem _ hm, hne⟩
      · intro y hy hyne
        rcases List.mem_cons.mp hy with h' | h'
        · exact absurd (h' ▸ hx) hyne
        · exact ih.2.1 y h' hyne
    · have hxle : strLe x M = true := by
        cases hacc : acc with
        | none =>
          have hstep : maxStep acc x = some x := by simp [maxStep, hx, hacc]
          rw [hstep] at ih
          exact ih.2.2 x rfl
        | some m =>
          by_cases hlt : strLt m x = true
          · have hstep : maxStep acc x = some x := by simp [maxStep, hx, hacc, hlt]
            rw [hstep] at ih
            exact ih.2.2 x rfl
          · have hstep : maxStep acc x = some m := by
              simp [maxStep, hx, hacc]
              intro hc
              exact absurd hc hlt
            rw [hstep] at ih
            exact strLe_trans (strLe_of_not_lt (Bool.not_eq_true _ ▸ (by simpa using hlt)))
              (ih.2.2 m rfl)
      refine ⟨?_, ?_, ?_⟩
      · cases hacc : acc with
        | none =>
          have hstep : maxStep acc x = some x := by simp [maxStep, hx, hacc]
          rw [hstep] at ih
          rcases ih.1 with h' | ⟨hm, hne⟩
          · cases h'
            exact Or.inr ⟨List.mem_cons_self _ _, hx⟩
          · exact Or.inr ⟨List.mem_cons_of_mem _ hm, hne⟩
        | some m =>
          by_cases hlt : strLt m x = true
          · have hstep : maxStep acc x = some x := by simp [maxStep, hx, hacc, hlt]
            rw [hstep] at ih
            rcases ih.1 with h' | ⟨hm, hne⟩
            · cases h'
              exact Or.inr ⟨List.mem_cons_self _ _, hx⟩
            · exact Or.inr ⟨List.mem_cons_of_mem _ hm, hne⟩
          · have hstep : maxStep acc x = some m := by
              simp [maxStep, hx, hacc]
              intro hc
              exact absurd hc hlt
            rw [hstep] at ih
            rcases ih.1 with h' | ⟨hm, hne⟩
            · exact Or.inl (hacc ▸ h')
            · exact Or.inr ⟨List.mem_cons_of_mem _ hm, hne⟩
      · intro y hy hyne
        rcases List.mem_cons.mp hy with h' | h'
        · exact h' ▸ hxle
        · exact ih.2.1 y h' hyne
      · intro m0 hm0
        subst hm0
        by_cases hlt : strLt m0 x = true
        · have hstep : maxStep (some m0) x = some x := by simp [maxStep, hx, hlt]
          rw [hstep] at ih
          exact strLe_trans (strLe_of_lt hlt) (ih.2.2 x rfl)
        · have hstep : maxStep (some m0) x = some m0 := by
            simp [maxStep, hx]
            intro hc
            exact absurd hc hlt
          rw [hstep] at ih
          exact ih.2.2 m0 rfl

theorem foldl_maxStep_join :
    ∀ (ti : Ledger) (acc : Option String),
      ti.foldl (fun acc p => p.2.foldl (fun a q => maxStep a q.2.lastTime) acc) acc
        = ((ti.map (fun p => p.2.map (fun q => q.2.lastTime))).flatten).foldl maxStep acc
  | [], _ => rfl
  | p :: ti', acc => by
    rw [List.foldl_cons, List.map_cons, List.flatten_cons, List.foldl_append,
      foldl_maxStep_join ti', List.foldl_map]

theorem mem_ledger_times {ti : Ledger} {x : String} :
    x ∈ (ti.map (fun p => p.2.map (fun q => q.2.lastTime))).flatten ↔
      ∃ sid t e, ledgerMem ti sid t e ∧ e.lastTime = x := by
  rw [List.mem_flatten]
  constructor
  · rintro ⟨l, hl, hx⟩
    rcases List.mem_map.mp hl with ⟨p, hp, hpe⟩
    subst hpe
    rcases List.mem_map.mp hx with ⟨q, hq, hqe⟩
    exact ⟨p.1, q.1, q.2, ⟨p.2, by simpa using hp, by simpa using hq⟩, hqe⟩
  · rintro ⟨sid, t, e, ⟨m, hm, hte⟩, hx⟩
    refine ⟨m.map (fun q => q.2.lastTime), ?_, ?_⟩
    · exact List.mem_map.mpr ⟨(sid, m), hm, rfl⟩
    · exact List.mem_map.mpr ⟨(t, e), hte, hx⟩

/-- Characterization of `latest_time`: when defined, it is attained by a
ledger entry and bounds every entry's `last_time` from above. -/
theorem maxLastTime_spec {ti : Ledger} {latest : String}
    (h : maxLastTime ti = some latest) :
    (∃ sid t e, ledgerMem ti sid t e ∧ e.lastTime = latest) ∧
    (∀ sid t e, ledgerMem ti sid t e → strLe e.lastTime latest = true) := by
  unfold maxLastTime at h
  rw [foldl_maxStep_join] at h
  have hs := maxFold_spec _ none latest h
  constructor
  · rcases hs.1 with h' | ⟨hm, _⟩
    · cases h'
    · exact mem_ledger_times.mp hm
  · intro sid t e hmem
    by_cases he : e.lastTime = ""
    · rw [he]
      exact listLexLe_refl [] ▸ rfl
    · exact hs.2.1 e.lastTime (mem_ledger_times.mpr ⟨sid, t, e, hmem, rfl⟩) he

theorem mem_of_lookup {β : Type} :
    ∀ (l : List (String × β)) (k : String) (v : β),
      List.lookup k l = some v → (k, v) ∈ l
  | [], _, _ => by simp
  | (k', b) :: ps, k, v => by
    intro h
    by_cases hk : k = k'
    · subst hk
      have heq : List.lookup k ((k, b) :: ps) = some b := by simp [List.lookup]
      rw [heq] at h
      cases h
      exact List.mem_cons_self _ _
    · have heq : List.lookup k ((k', b) :: ps) = List.lookup k ps := by
        simp [List.lookup, beq_eq_false_iff_ne.mpr hk]
      rw [heq] at h
      exact List.mem_cons_of_mem _ (mem_of_lookup ps k v h)

theorem currentScope_mem (results : Results) (ti : Ledger) {latest : String}
    (hml : maxLastTime ti = some latest) :
    ∀ sid t d, pairMem (currentScope results ti) sid t d ↔
      (pairMem results sid t d ∧
        ∃ e, (List.lookup sid ti).bind (fun m => List.lookup t m) = some e ∧
          e.lastTime = latest) := by
  have hne : ti.isEmpty = false := by
    cases hti : ti with
    | nil =>
      rw [hti] at hml
      exact absurd hml (by simp [maxLastTime])
    | cons _ _ => rfl
  intro sid t d
  unfold currentScope
  rw [hne, hml]
  simp only [Bool.false_eq_true, if_false]
  constructor
  · rintro ⟨tm', htm', htd⟩
    rcases List.mem_filter.mp htm' with ⟨hmem, hp⟩
    rcases List.mem_map.mp hmem with ⟨q, hq, hqe⟩
    have hq1 : q.1 = sid := congrArg Prod.fst hqe
    have hq2 : tm' = currentScopeInner ti latest q := (congrArg Prod.snd hqe).symm
    rw [hq2] at htd
    unfold currentScopeInner at htd
    cases hlk : List.lookup q.1 ti with
    | none => rw [hlk] at htd; exact absurd htd (List.not_mem_nil _)
    | some infoTitles =>
      rw [hlk] at htd
      rcases List.mem_filter.mp htd with ⟨htm, hpred⟩
      cases hlk2 : List.lookup t infoTitles with
      | none => rw [hlk2] at hpred; exact absurd hpred (by simp)
      | some e =>
        rw [hlk2] at hpred
        refine ⟨⟨q.2, ?_, htm⟩, e, ?_, beq_iff_eq.mp hpred⟩
        · rw [← hq1]
          simpa using hq
        · rw [← hq1, hlk]
          simpa using hlk2
  · rintro ⟨⟨tm, htm, htd⟩, e, hlk, hle⟩
    rcases Option.bind_eq_some.mp hlk with ⟨infoTitles, h1, h2⟩
    have htd' : (t, d) ∈ currentScopeInner ti latest (sid, tm) := by
      unfold currentScopeInner
      simp only [h1]
      apply List.mem_filter.mpr
      refine ⟨htd, ?_⟩
      simp only [h2]
      exact beq_iff_eq.mpr hle
    refine ⟨currentScopeInner ti latest (sid, tm), ?_, htd'⟩
    apply List.mem_filter.mpr
    refine ⟨List.mem_map.mpr ⟨(sid, tm), htm, rfl⟩, ?_⟩
    cases h : currentScopeInner ti latest (sid, tm) with
    | nil => rw [h] at htd'; exact absurd htd' (List.not_mem_nil _)
    | cons _ _ => simp [h]

theorem filter_map_keys_nodup {β γ : Type} (l : List (String × β))
    (f : String × β → String × γ) (hf : ∀ q, (f q).1 = q.1)
    (p : String × γ → Bool)
    (hnd : (l.map Prod.fst).Nodup) :
    (((l.map f).filter p).map Prod.fst).Nodup := by
  have hsub : (((l.map f).filter p).map Prod.fst).Sublist ((l.map f).map Prod.fst) :=
    (List.filter_sublist _).map Prod.fst
  rw [map_fst_of_fst_eq f hf l] at hsub
  exact hnd.sublist hsub

theorem currentScope_keys_nodup (results : Results) (ti : Ledger)
    (hnd : (results.map Prod.fst).Nodup) :
    ((currentScope results ti).map Prod.fst).Nodup := by
  unfold currentScope
  cases hE : ti.isEmpty
  · simp only [Bool.false_eq_true, if_false]
    cases hml : maxLastTime ti with
    | none => exact hnd
    | some latest =>
      exact filter_map_keys_nodup results
        (fun p => (p.1, currentScopeInner ti latest p)) (fun _ => rfl)
        (fun p => !p.2.isEmpty) hnd
  · simp only [if_true]
    exact hnd

theorem buildDisplay_fields (ctx : CountCtx) (sid t : String) (d : TitleData)
    (e : LedgerEntry)
    (hlk : (List.lookup sid ctx.titleInfo).bind (fun m => List.lookup t m) = some e)
    (hranks : e.ranks ≠ []) :
    (buildDisplay ctx sid t d).firstTime = e.firstTime ∧
    (buildDisplay ctx sid t d).lastTime = e.lastTime ∧
    (buildDisplay ctx sid t d).count = e.count ∧
    (buildDisplay ctx sid t d).ranks = e.ranks ∧
    (buildDisplay ctx sid t d).url = e.url ∧
    (buildDisplay ctx sid t d).mobileUrl = e.mobileUrl ∧
    (buildDisplay ctx sid t d).isNew =
      (if ctx.allNewsAreNew = true then true
       else ((List.lookup sid ctx.newTitles).getD []).any (fun q => q.1 == t)) := by
  have hne : ctx.titleInfo.isEmpty = false := by
    cases hti : ctx.titleInfo with
    | nil => rw [hti] at hlk; simp at hlk
    | cons _ _ => rfl
  unfold buildDisplay
  simp only [hne, Bool.false_eq_true, if_false, hlk, ne_eq, hranks,
    not_false_iff, if_true]
  refine ⟨trivial, trivial, trivial, trivial, trivial, trivial, ?_⟩
  cases hA : ctx.allNewsAreNew
  · simp only [Bool.false_eq_true, if_false]
    cases hnt : ctx.newTitles with
    | nil => simp
    | cons nh ntl =>
      have hne2 : (nh :: ntl : Results) ≠ [] := by simp
      rw [if_pos hne2]
      cases hlk2 : List.lookup sid (nh :: ntl : Results) with
      | none => simp [hlk2]
      | some lst => simp [hlk2]
  · simp

theorem countWordFrequency_current_empty (results : Results)
    (filterWords : List String) (idToName : List (String × String))
    (titleInfo : Ledger) (rankThreshold : Int) (newTitles : Results)
    (isFirstToday : Bool) :
    countWordFrequency results [] filterWords idToName titleInfo
        rankThreshold newTitles "current" isFirstToday =
      ((finalizeStats ((currentScope results titleInfo).foldl (processSource
          { wordGroups := [{ required := [], normal := [], groupKey := allNewsKey }]
            filterWords := [], idToName := idToName
            titleInfo := titleInfo, newTitles := newTitles
            allNewsAreNew := false, rankThreshold := rankThreshold })
          { wordStats := ([{ required := [], normal := [], groupKey := allNewsKey }] :
              List WordGroup).foldl
              (fun m g => setAssoc g.groupKey { count := 0, titles := [] } m) []
            totalTitles := 0, processed := [] }).wordStats),
       (((currentScope results titleInfo).foldl (processSource
          { wordGroups := [{ required := [], normal := [], groupKey := allNewsKey }]
            filterWords := [], idToName := idToName
            titleInfo := titleInfo, newTitles := newTitles
            allNewsAreNew := false, rankThreshold := rankThreshold })
          { wordStats := ([{ required := [], normal := [], groupKey := allNewsKey }] :
              List WordGroup).foldl
              (fun m g => setAssoc g.groupKey { count := 0, titles := [] } m) []
            totalTitles := 0, processed := [] }).totalTitles)) := by
  unfold countWordFrequency
  rw [if_pos rfl, if_pos rfl]
  simp only [String.reduceEq, if_false, if_true, decide_eq_true_eq, decide_False]

theorem current_displays (ctx : CountCtx) (results : Results) (latest : String)
    (hwg : ctx.wordGroups ≠ []) (hnew : ctx.allNewsAreNew = false)
    (hnd : (results.map Prod.fst).Nodup)
    (hml : maxLastTime ctx.titleInfo = some latest)
    (hranks : ∀ sid t e, ledgerMem ctx.titleInfo sid t e → e.ranks ≠ []) :
    ∀ st ∈ finalizeStats ((currentScope results ctx.titleInfo).foldl
        (processSource ctx)
        { wordStats := ctx.wordGroups.foldl
            (fun m g => setAssoc g.groupKey { count := 0, titles := [] } m) []
          totalTitles := 0, processed := [] }).wordStats,
      ∀ dd ∈ st.titles, ∃ sid e,
        (List.lookup sid ctx.titleInfo).bind (fun m => List.lookup dd.title m) = some e ∧
        e.lastTime = latest ∧ dd.firstTime = e.firstTime ∧ dd.lastTime = e.lastTime ∧
        dd.count = e.count ∧ dd.ranks = e.ranks ∧ dd.url = e.url ∧
        dd.mobileUrl = e.mobileUrl ∧
        dd.isNew = ((List.lookup sid ctx.newTitles).getD []).any
          (fun q => q.1 == dd.title) := by
  intro st hst dd hdd
  have hsetspec := foldl_setAssoc_spec { count := 0, titles := [] } ctx.wordGroups []
    (by simp) (by simp)
  have hinv := initState_inv ctx (currentScope results ctx.titleInfo) hsetspec.2.2.2
  have houter := outerFold_spec ctx (currentScope results ctx.titleInfo) hwg
    (currentScope results ctx.titleInfo)
    { wordStats := ctx.wordGroups.foldl
        (fun m g => setAssoc g.groupKey { count := 0, titles := [] } m) []
      totalTitles := 0, processed := [] } hinv
    (fun q hq p hp => ⟨q.2, (by simpa using hq), hp⟩)
    (currentScope_keys_nodup results ctx.titleInfo hnd)
    (fun q _ => rfl)
  rcases finalize_mem _ st hst with ⟨q, hq, _, _, htitles⟩
  rcases htitles dd hdd with ⟨r, hr, hddr⟩
  rcases (houter.1.attr q hq r hr dd hddr).1 with ⟨d, hpm, hde⟩
  rcases (currentScope_mem results ctx.titleInfo hml r.1 dd.title d).mp hpm with
    ⟨_, e, hlk, hle⟩
  have hrk : e.ranks ≠ [] := by
    rcases Option.bind_eq_some.mp hlk with ⟨m, h1, h2⟩
    exact hranks r.1 dd.title e ⟨m, mem_of_lookup _ _ _ h1, mem_of_lookup _ _ _ h2⟩
  have hf := buildDisplay_fields ctx r.1 dd.title d e hlk hrk
  rw [hnew] at hf
  simp only [Bool.false_eq_true, if_false] at hf
  refine ⟨r.1, e, hlk, hle, ?_, ?_, ?_, ?_, ?_, ?_, ?_⟩
  · rw [hde]; exact hf.1
  · rw [hde]; exact hf.2.1
  · rw [hde]; exact hf.2.2.1
  · rw [hde]; exact hf.2.2.2.1
  · rw [hde]; exact hf.2.2.2.2.1
  · rw [hde]; exact hf.2.2.2.2.2.1
  · rw [hde]; exact hf.2.2.2.2.2.2

/-- C7: in "current" mode the statistics engine processes exactly the
titles whose ledger `last_time` equals the maximum `last_time` over the
whole ledger; every reported display takes `first_time`, `last_time`,
`count`, `ranks`, `url` and `mobileUrl` from the full-day ledger entry; and
`is_new` is false unless the title belongs to the supplied diff result for
its source. -/
theorem current_mode_scope
    (results : Results) (wordGroups : List WordGroup) (filterWords : List String)
    (idToName : List (String × String)) (titleInfo : Ledger) (rankThreshold : Int)
    (newTitles : Results) (isFirstToday : Bool) (latest : String)
    (hnd : (results.map Prod.fst).Nodup)
    (hml : maxLastTime titleInfo = some latest)
    (hranks : ∀ sid t e, ledgerMem titleInfo sid t e → e.ranks ≠ []) :
    ((∃ sid t e, ledgerMem titleInfo sid t e ∧ e.lastTime = latest) ∧
     (∀ sid t e, ledgerMem titleInfo sid t e → strLe e.lastTime latest = true)) ∧
    (∀ sid t d, pairMem (currentScope results titleInfo) sid t d ↔
      (pairMem results sid t d ∧
        ∃ e, (List.lookup sid titleInfo).bind (fun m => List.lookup t m) = some e ∧
          e.lastTime = latest)) ∧
    (∀ st ∈ (countWordFrequency results wordGroups filterWords idToName titleInfo
        rankThreshold newTitles "current" isFirstToday).1,
      ∀ dd ∈ st.titles, ∃ sid e,
        (List.lookup sid titleInfo).bind (fun m => List.lookup dd.title m) = some e ∧
        e.lastTime = latest ∧ dd.firstTime = e.firstTime ∧ dd.lastTime = e.lastTime ∧
        dd.count = e.count ∧ dd.ranks = e.ranks ∧ dd.url = e.url ∧
        dd.mobileUrl = e.mobileUrl ∧
        dd.isNew = ((List.lookup sid newTitles).getD []).any
          (fun q => q.1 == dd.title)) := by
  refine ⟨maxLastTime_spec hml, currentScope_mem results titleInfo hml, ?_⟩
  by_cases hwg : wordGroups = []
  · subst hwg
    rw [countWordFrequency_current_empty results filterWords idToName titleInfo
      rankThreshold newTitles isFirstToday]
    exact current_displays
      { wordGroups := [{ required := [], normal := [], groupKey := allNewsKey }]
        filterWords := [], idToName := idToName
        titleInfo := titleInfo, newTitles := newTitles
        allNewsAreNew := false, rankThreshold := rankThreshold }
      results latest (by simp) rfl hnd hml hranks
  · rw [countWordFrequency_current results wordGroups filterWords idToName titleInfo
      rankThreshold newTitles isFirstToday hwg]
    exact current_displays
      { wordGroups := wordGroups, filterWords := filterWords, idToName := idToName
        titleInfo := titleInfo, newTitles := newTitles
        allNewsAreNew := false, rankThreshold := rankThreshold }
      results latest hwg rfl hnd hml hranks

/-- Closed instance of `current_mode_scope`: with a one-entry ledger whose
`last_time` is `"10:00"`, the title is in the "current" scope. -/
theorem current_mode_scope_witness :
    pairMem (currentScope
        [("s1", [("ab", (⟨[3], "u", "m"⟩ : TitleData))])]
        [("s1", [("ab", (⟨"08:00", "10:00", 2, [3, 4], "uu", "mm"⟩ : LedgerEntry))])])
      "s1" "ab" ⟨[3], "u", "m"⟩ := by
  have hranks : ∀ sid t e,
      ledgerMem [("s1", [("ab",
        (⟨"08:00", "10:00", 2, [3, 4], "uu", "mm"⟩ : LedgerEntry))])] sid t e →
        e.ranks ≠ [] := by
    intro sid t e hm
    rcases hm with ⟨m, hm1, hm2⟩
    rw [List.mem_singleton, Prod.mk.injEq] at hm1
    rcases hm1 with ⟨_, h2⟩
    subst h2
    rw [List.mem_singleton, Prod.mk.injEq] at hm2
    rcases hm2 with ⟨_, h3⟩
    subst h3
    decide
  have h := (current_mode_scope
      [("s1", [("ab", (⟨[3], "u", "m"⟩ : TitleData))])] [] [] []
      [("s1", [("ab", (⟨"08:00", "10:00", 2, [3, 4], "uu", "mm"⟩ : LedgerEntry))])]
      5 [] false "10:00" (by decide) (by decide) hranks).2.1 "s1" "ab" ⟨[3], "u", "m"⟩
  exact h.mpr ⟨⟨[("ab", ⟨[3], "u", "m"⟩)], by decide, by decide⟩,
    ⟨⟨"08:00", "10:00", 2, [3, 4], "uu", "mm"⟩, by decide, by decide⟩⟩

theorem inHistorical_false_iff {historical : List Results} {sid t : String} :
    inHistorical none historical sid t = false ↔
      ∀ snap ∈ historical, ∀ d' : TitleData, ¬ pairMem snap sid t d' := by
  unfold inHistorical
  rw [List.any_eq_false]
  constructor
  · intro h snap hsnap d' hpm
    rcases hpm with ⟨tm, htm, htd⟩
    have h1 := h snap hsnap
    rw [show filterByPlatform none snap = snap from rfl, Bool.not_eq_true,
      List.any_eq_false] at h1
    have h2 := h1 (sid, tm) htm
    simp only [beq_self_eq_true, Bool.true_and] at h2
    exact h2 (List.any_eq_true.mpr ⟨(t, d'), htd, by simp⟩)
  · intro h snap hsnap
    rw [show filterByPlatform none snap = snap from rfl, Bool.not_eq_true,
      List.any_eq_false]
    intro q hq
    by_cases hqs : q.1 = sid
    · cases ha : q.2.any (fun p => p.1 == t)
      · simp [ha]
      · exfalso
        rcases List.any_eq_true.mp ha with ⟨p, hp, hpt⟩
        refine h snap hsnap p.2 ⟨q.2, ?_, ?_⟩
        · rw [← hqs]
          simpa using hq
        · have hpe : p = (t, p.2) := by
            rcases p with ⟨p1, p2⟩
            simp only [beq_iff_eq] at hpt
            rw [hpt]
          rw [← hpe]
          exact hp
    · simp [beq_eq_false_iff_ne.mpr hqs]

/-- C5: with fewer than two snapshots, the diff result is empty; otherwise
a title is reported as new for a source iff it occurs for that source in
the latest snapshot (with the latest snapshot's data reported) and is
absent from every earlier snapshot's title set for that source. -/
theorem diff_detector_contract (snaps : List Results) :
    (snaps.length < 2 → detectLatestNewTitles none snaps = []) ∧
    (2 ≤ snaps.length →
      ∀ sid t d, pairMem (detectLatestNewTitles none snaps) sid t d ↔
        (pairMem (snaps.getLast?.getD []) sid t d ∧
          ∀ snap ∈ snaps.dropLast, ∀ d' : TitleData, ¬ pairMem snap sid t d')) := by
  constructor
  · intro h
    unfold detectLatestNewTitles
    rw [if_pos h]
  · intro h2 sid t d
    unfold detectLatestNewTitles
    rw [if_neg (by omega)]
    simp only [show filterByPlatform none (snaps.getLast?.getD []) =
      snaps.getLast?.getD [] from rfl]
    constructor
    · rintro ⟨tm', htm', htd⟩
      rcases List.mem_filter.mp htm' with ⟨hmem, _⟩
      rcases List.mem_map.mp hmem with ⟨q, hq, hqe⟩
      have hq1 : q.1 = sid := congrArg Prod.fst hqe
      have hq2 : tm' = q.2.filter
          (fun p => !(inHistorical none snaps.dropLast q.1 p.1)) :=
        (congrArg Prod.snd hqe).symm
      rw [hq2] at htd
      rcases List.mem_filter.mp htd with ⟨htm, hpred⟩
      have hhist : inHistorical none snaps.dropLast sid t = false := by
        rw [← hq1]
        simpa using hpred
      refine ⟨⟨q.2, ?_, htm⟩, inHistorical_false_iff.mp hhist⟩
      rw [← hq1]
      simpa using hq
    · rintro ⟨⟨tm, htm, htd⟩, hnot⟩
      have hhist : inHistorical none snaps.dropLast sid t = false :=
        inHistorical_false_iff.mpr hnot
      have htd' : (t, d) ∈ tm.filter
          (fun p => !(inHistorical none snaps.dropLast sid p.1)) := by
        apply List.mem_filter.mpr
        refine ⟨htd, ?_⟩
        simpa using hhist
      refine ⟨tm.filter (fun p => !(inHistorical none snaps.dropLast sid p.1)),
        ?_, htd'⟩
      apply List.mem_filter.mpr
      refine ⟨List.mem_map.mpr ⟨(sid, tm), htm, rfl⟩, ?_⟩
      cases hres : tm.filter (fun p => !(inHistorical none snaps.dropLast sid p.1)) with
      | nil =>
        rw [hres] at htd'
        exact absurd htd' (List.not_mem_nil _)
      | cons _ _ => simp [hres]

/-- Closed instance of `diff_detector_contract`: with exactly one snapshot
for the day, diff detection returns empty. -/
theorem diff_detector_contract_witness :
    detectLatestNewTitles none
      [[("s1", [("ab", (⟨[3], "u", "m"⟩ : TitleData))])]] = [] :=
  (diff_detector_contract _).1 (by decide)

/-! ### Snapshot merger lemmas -/

theorem updFun_self {β : Type} (f : String → β) (k : String) (v : β) :
    updFun f k v k = v := by simp [updFun]

theorem updFun_other {β : Type} (f : String → β) (k : String) (v : β)
    {x : String} (h : x ≠ k) : updFun f k v x = f x := by simp [updFun, h]

theorem lookup_eq_none_of_not_mem {β : Type} :
    ∀ {l : List (String × β)} {t : String}, t ∉ l.map Prod.fst →
      List.lookup t l = none
  | [], _, _ => rfl
  | (k, v) :: ps, t, h => by
    simp only [List.map_cons, List.mem_cons] at h
    push_neg at h
    have : (t == k) = false := beq_eq_false_iff_ne.mpr h.1
    simp only [List.lookup, this]
    exact lookup_eq_none_of_not_mem h.2

theorem lookup_cons_self {β : Type} (k : String) (v : β) (ps : List (String × β)) :
    List.lookup k ((k, v) :: ps) = some v := by simp [List.lookup]

theorem lookup_cons_ne {β : Type} (k' : String) (v : β) (ps : List (String × β))
    {k : String} (h : k ≠ k') :
    List.lookup k ((k', v) :: ps) = List.lookup k ps := by
  simp [List.lookup, beq_eq_false_iff_ne.mpr h]

theorem foldDict_lookup :
    ∀ (tm : TitleMap) (m : String → Option TitleData) (t : String),
      (tm.map Prod.fst).Nodup →
      (tm.foldl (fun m p => updFun m p.1 (some p.2)) m) t =
        match List.lookup t tm with
        | some d => some d
        | none => m t
  | [], _, _, _ => rfl
  | (t', d') :: tm', m, t, hnd => by
    simp only [List.map_cons, List.nodup_cons] at hnd
    rw [List.foldl_cons, foldDict_lookup tm' _ t hnd.2]
    by_cases ht : t = t'
    · subst ht
      rw [lookup_eq_none_of_not_mem hnd.1, lookup_cons_self]
      exact updFun_self m t (some d')
    · rw [lookup_cons_ne _ _ _ ht]
      cases List.lookup t tm' with
      | some d => rfl
      | none => exact updFun_other m t' (some d') ht

theorem dictOf_lookup (tm : TitleMap) (hnd : (tm.map Prod.fst).Nodup) (t : String) :
    dictOf tm t = List.lookup t tm := by
  unfold dictOf
  rw [foldDict_lookup tm _ t hnd]
  cases List.lookup t tm <;> rfl

theorem mergeRanks_append (a b c : List Int) :
    mergeRanks (mergeRanks a b) c = mergeRanks a (b ++ c) := by
  unfold mergeRanks
  rw [List.foldl_append]

theorem mergeRanks_nodup :
    ∀ (l init : List Int), init.Nodup → (mergeRanks init l).Nodup
  | [], init, h => h
  | r :: rs, init, h => by
    unfold mergeRanks
    rw [List.foldl_cons]
    by_cases hr : r ∈ init
    · rw [if_pos hr]
      exact mergeRanks_nodup rs init h
    · rw [if_neg hr]
      refine mergeRanks_nodup rs (init ++ [r]) ?_
      rw [List.nodup_append]
      exact ⟨h, List.nodup_singleton _, fun x hx hx' =>
        hr ((List.mem_singleton.mp hx') ▸ hx)⟩

theorem mergeRanks_nil_of_nodup :
    ∀ (l init : List Int), (init ++ l).Nodup → mergeRanks init l = init ++ l
  | [], init, _ => by simp [mergeRanks]
  | r :: rs, init, h => by
    unfold mergeRanks
    rw [List.foldl_cons]
    have hr : r ∉ init := by
      intro hc
      rcases List.nodup_append.mp h with ⟨_, _, hdisj⟩
      exact hdisj hc (List.mem_cons_self r rs)
    rw [if_neg hr]
    have h' : ((init ++ [r]) ++ rs).Nodup := by
      rw [List.append_assoc]
      exact h
    have hrec := mergeRanks_nil_of_nodup rs (init ++ [r]) h'
    unfold mergeRanks at hrec
    rw [hrec]
    simp

theorem getLast?_mem_own : ∀ {l : List String} {a : String},
    l.getLast? = some a → a ∈ l := by
  intro l a h
  rcases List.mem_getLast?_eq_getLast (show a ∈ l.getLast? from by rw [h]; rfl) with
    ⟨hne, heq⟩
  rw [heq]
  exact List.getLast_mem hne

theorem mergeTitle_spec (time sourceId : String) (st : MergeState)
    (p : String × TitleData) (hinv : MergeInv st)
    {res : String → Option TitleData} (hres : st.allResults sourceId = some res) :
    MergeInv (mergeTitle time sourceId st p) ∧
    (∃ res2, (mergeTitle time sourceId st p).allResults sourceId = some res2) ∧
    ∀ s t, (mergeTitle time sourceId st p).titleInfo s t =
      if s = sourceId ∧ t = p.1 then stepSpec time p.2 (st.titleInfo s t)
      else st.titleInfo s t := by
  unfold mergeTitle
  rw [hres]
  dsimp only
  cases hrt : res p.1 with
  | none =>
    dsimp only
    have hti : st.titleInfo sourceId p.1 = none := by
      rcases (hinv sourceId p.1).2 res hres with ⟨_, h⟩ | ⟨d, e, hd, _, _⟩
      · exact h
      · rw [hrt] at hd; exact absurd hd (by simp)
    refine ⟨?_, ⟨_, updFun_self _ _ _⟩, ?_⟩
    · intro sid t
      dsimp only
      by_cases hsid : sid = sourceId
      · subst hsid
        refine ⟨fun h => ?_, fun res2 h => ?_⟩
        · rw [updFun_self] at h; exact absurd h (by simp)
        · rw [updFun_self] at h
          injection h with h
          subst h
          by_cases ht : t = p.1
          · subst ht
            exact Or.inr ⟨p.2, newEntry time p.2, updFun_self _ _ _,
              by simp, rfl, rfl, rfl⟩
          · rw [updFun_other _ _ _ ht]
            rw [if_neg (show ¬(sid = sid ∧ t = p.1) from fun hc => ht hc.2)]
            exact (hinv sid t).2 res hres
      · rw [updFun_other _ _ _ hsid]
        have hcond : ¬(sid = sourceId ∧ t = p.1) := fun hc => hsid hc.1
        simp only [hcond, if_false]
        exact hinv sid t
    · intro s t
      by_cases hc : s = sourceId ∧ t = p.1
      · obtain ⟨hs, ht⟩ := hc
        subst hs; subst ht
        simp only [and_self, if_true, hti, stepSpec]
      · simp only [hc, if_false]
  | some existing =>
    dsimp only
    obtain ⟨e, hti, hre, hue, hme⟩ :
        ∃ e, st.titleInfo sourceId p.1 = some e ∧ existing.ranks = e.ranks ∧
          existing.url = e.url ∧ existing.mobileUrl = e.mobileUrl := by
      rcases (hinv sourceId p.1).2 res hres with ⟨hd, _⟩ | ⟨d, e, hd, he, h1, h2, h3⟩
      · rw [hrt] at hd; exact absurd hd (by simp)
      · rw [hrt] at hd
        injection hd with hd
        subst hd
        exact ⟨e, he, h1, h2, h3⟩
    refine ⟨?_, ⟨_, updFun_self _ _ _⟩, ?_⟩
    · intro sid t
      dsimp only
      by_cases hsid : sid = sourceId
      · subst hsid
        refine ⟨fun h => ?_, fun res2 h => ?_⟩
        · rw [updFun_self] at h; exact absurd h (by simp)
        · rw [updFun_self] at h
          injection h with h
          subst h
          by_cases ht : t = p.1
          · subst ht
            refine Or.inr ⟨_, mergeEntry time p.2 (mergeRanks existing.ranks p.2.ranks) e,
              updFun_self _ _ _, by simp [hti], rfl, ?_, ?_⟩
            · simp [mergeEntry, hue]
            · simp [mergeEntry, hme]
          · rw [updFun_other _ _ _ ht]
            rw [if_neg (show ¬(sid = sid ∧ t = p.1) from fun hc => ht hc.2)]
            exact (hinv sid t).2 res hres
      · rw [updFun_other _ _ _ hsid]
        have hcond : ¬(sid = sourceId ∧ t = p.1) := fun hc => hsid hc.1
        simp only [hcond, if_false]
        exact hinv sid t
    · intro s t
      by_cases hc : s = sourceId ∧ t = p.1
      · obtain ⟨hs, ht⟩ := hc
        subst hs; subst ht
        simp only [and_self, if_true, hti, stepSpec, hre]
      · simp only [hc, if_false]

theorem mergeFold_spec :
    ∀ (tm : TitleMap) (time sourceId : String) (st : MergeState),
      (tm.map Prod.fst).Nodup → MergeInv st → st.allResults sourceId ≠ none →
      MergeInv (tm.foldl (mergeTitle time sourceId) st) ∧
      (tm.foldl (mergeTitle time sourceId) st).allResults sourceId ≠ none ∧
      ∀ s t, (tm.foldl (mergeTitle time sourceId) st).titleInfo s t =
        if s = sourceId then
          match List.lookup t tm with
          | some d => stepSpec time d (st.titleInfo s t)
          | none => st.titleInfo s t
        else st.titleInfo s t
  | [], time, sourceId, st, _, hinv, hsome => by
    refine ⟨hinv, hsome, fun s t => ?_⟩
    simp only [List.foldl_nil, List.lookup_nil]
    by_cases hs : s = sourceId
    · rw [if_pos hs]
    · rw [if_neg hs]
  | (t1, d1) :: tm', time, sourceId, st, hnd, hinv, hsome => by
    obtain ⟨res, hres⟩ := Option.ne_none_iff_exists'.mp hsome
    obtain ⟨hinv1, ⟨res2, hres2⟩, hchar1⟩ :=
      mergeTitle_spec time sourceId st (t1, d1) hinv hres
    simp only [List.map_cons, List.nodup_cons] at hnd
    rw [List.foldl_cons]
    obtain ⟨hinv2, hsome2, hchar2⟩ :=
      mergeFold_spec tm' time sourceId (mergeTitle time sourceId st (t1, d1)) hnd.2 hinv1
        (by rw [hres2]; exact fun h => Option.noConfusion h)
    refine ⟨hinv2, hsome2, fun s t => ?_⟩
    rw [hchar2 s t]
    by_cases hs : s = sourceId
    · rw [if_pos hs, if_pos hs]
      by_cases ht : t = t1
      · subst ht
        simp only [lookup_cons_self, lookup_eq_none_of_not_mem hnd.1]
        rw [hchar1 s t]
        rw [if_pos ⟨hs, rfl⟩]
      · simp only [lookup_cons_ne _ _ _ ht]
        have hft : (mergeTitle time sourceId st (t1, d1)).titleInfo s t =
            st.titleInfo s t := by
          rw [hchar1 s t]
          exact if_neg (fun hc => ht hc.2)
        simp only [hft]
    · rw [if_neg hs, if_neg hs, hchar1 s t, if_neg (fun hc => hs hc.1)]

theorem assignFold_lookup :
    ∀ (tm : TitleMap) (ti : String → String → Option LedgerEntry)
      (sourceId time s t : String),
      (tm.map Prod.fst).Nodup →
      (tm.foldl (fun ti p =>
          fun s t => if s = sourceId ∧ t = p.1 then some (newEntry time p.2) else ti s t)
        ti) s t =
        if s = sourceId then
          match List.lookup t tm with
          | some d => some (newEntry time d)
          | none => ti s t
        else ti s t
  | [], ti, sourceId, time, s, t, _ => by
    simp only [List.foldl_nil, List.lookup_nil]
    by_cases hs : s = sourceId
    · rw [if_pos hs]
    · rw [if_neg hs]
  | (t1, d1) :: tm', ti, sourceId, time, s, t, hnd => by
    simp only [List.map_cons, List.nodup_cons] at hnd
    rw [List.foldl_cons,
      assignFold_lookup tm' _ sourceId time s t hnd.2]
    by_cases hs : s = sourceId
    · by_cases ht : t = t1
      · subst ht
        simp [hs, lookup_cons_self, lookup_eq_none_of_not_mem hnd.1]
      · simp only [lookup_cons_ne _ _ _ ht]
        simp [hs, ht]
    · simp [hs]

theorem processSourceData_spec (sourceId : String) (tm : TitleMap) (time : String)
    (st : MergeState) (hnd : (tm.map Prod.fst).Nodup) (hinv : MergeInv st) :
    MergeInv (processSourceData sourceId tm time st) ∧
    ∀ s t, (processSourceData sourceId tm time st).titleInfo s t =
      if s = sourceId then
        match List.lookup t tm with
        | some d => stepSpec time d (st.titleInfo s t)
        | none => st.titleInfo s t
      else st.titleInfo s t := by
  unfold processSourceData
  cases hall : st.allResults sourceId with
  | some res =>
    dsimp only
    obtain ⟨hinv2, _, hchar⟩ := mergeFold_spec tm time sourceId st hnd hinv
      (by rw [hall]; exact fun h => Option.noConfusion h)
    exact ⟨hinv2, hchar⟩
  | none =>
    dsimp only
    have hnone : ∀ t, st.titleInfo sourceId t = none :=
      fun t => (hinv sourceId t).1 hall
    have hchar : ∀ s t,
        (tm.foldl (fun ti p =>
            fun s t => if s = sourceId ∧ t = p.1 then some (newEntry time p.2) else ti s t)
          st.titleInfo) s t =
          if s = sourceId then
            match List.lookup t tm with
            | some d => some (newEntry time d)
            | none => st.titleInfo s t
          else st.titleInfo s t :=
      fun s t => assignFold_lookup tm st.titleInfo sourceId time s t hnd
    refine ⟨?_, ?_⟩
    · intro sid t
      dsimp only
      by_cases hsid : sid = sourceId
      · subst hsid
        refine ⟨fun h => ?_, fun res2 h => ?_⟩
        · rw [updFun_self] at h; exact absurd h (by simp)
        · rw [updFun_self] at h
          injection h with h
          subst h
          rw [hchar sid t, if_pos rfl, dictOf_lookup tm hnd t]
          cases List.lookup t tm with
          | some d => exact Or.inr ⟨d, newEntry time d, rfl, rfl, rfl, rfl, rfl⟩
          | none => exact Or.inl ⟨rfl, hnone t⟩
      · rw [updFun_other _ _ _ hsid]
        rw [hchar sid t, if_neg hsid]
        exact hinv sid t
    · intro s t
      rw [hchar s t]
      by_cases hs : s = sourceId
      · rw [if_pos hs, if_pos hs]
        subst hs
        rw [hnone t]
        cases List.lookup t tm with
        | some d => rfl
        | none => rfl
      · rw [if_neg hs, if_neg hs]

theorem snapshotFold_spec :
    ∀ (rs : Results) (time : String) (st : MergeState),
      (rs.map Prod.fst).Nodup →
      (∀ q ∈ rs, ((q.2 : TitleMap).map Prod.fst).Nodup) →
      MergeInv st →
      MergeInv (rs.foldl (fun st p => processSourceData p.1 p.2 time st) st) ∧
      ∀ s t, (rs.foldl (fun st p => processSourceData p.1 p.2 time st) st).titleInfo s t =
        match List.lookup s rs with
        | some tm =>
          match List.lookup t tm with
          | some d => stepSpec time d (st.titleInfo s t)
          | none => st.titleInfo s t
        | none => st.titleInfo s t
  | [], time, st, _, _, hinv => by
    refine ⟨hinv, fun s t => ?_⟩
    simp only [List.foldl_nil, List.lookup_nil]
  | (sid1, tm1) :: rs', time, st, hnd, htm, hinv => by
    simp only [List.map_cons, List.nodup_cons] at hnd
    rw [List.foldl_cons]
    obtain ⟨hinv1, hchar1⟩ := processSourceData_spec sid1 tm1 time st
      (htm (sid1, tm1) (List.mem_cons_self _ _)) hinv
    obtain ⟨hinv2, hchar2⟩ := snapshotFold_spec rs' time
      (processSourceData sid1 tm1 time st) hnd.2
      (fun q hq => htm q (List.mem_cons_of_mem _ hq)) hinv1
    refine ⟨hinv2, fun s t => ?_⟩
    rw [hchar2 s t]
    by_cases hs : s = sid1
    · subst hs
      simp only [lookup_cons_self, lookup_eq_none_of_not_mem hnd.1]
      rw [hchar1 s t, if_pos rfl]
    · simp only [lookup_cons_ne _ _ _ hs]
      have hft : (processSourceData sid1 tm1 time st).titleInfo s t =
          st.titleInfo s t := by
        rw [hchar1 s t]
        exact if_neg hs
      simp only [hft]

theorem occurrencesOf_cons (q : String × Results) (snaps : List (String × Results))
    (sid t : String) :
    occurrencesOf (q :: snaps) sid t =
      match List.lookup sid q.2 with
      | none => occurrencesOf snaps sid t
      | some tm =>
        match List.lookup t tm with
        | none => occurrencesOf snaps sid t
        | some d => (q.1, d) :: occurrencesOf snaps sid t := by
  unfold occurrencesOf
  rw [List.filterMap_cons]
  cases List.lookup sid q.2 with
  | none => rfl
  | some tm =>
    dsimp only [Option.bind]
    cases List.lookup t tm with
    | none => rfl
    | some d => rfl

theorem dayFold_spec :
    ∀ (snaps : List (String × Results)) (st : MergeState),
      (∀ q ∈ snaps, ((q.2 : Results).map Prod.fst).Nodup ∧
        ∀ s ∈ (q.2 : Results), ((s.2 : TitleMap).map Prod.fst).Nodup) →
      MergeInv st →
      MergeInv (snaps.foldl (fun st q =>
        q.2.foldl (fun st p => processSourceData p.1 p.2 q.1 st) st) st) ∧
      ∀ sid t, (snaps.foldl (fun st q =>
          q.2.foldl (fun st p => processSourceData p.1 p.2 q.1 st) st) st).titleInfo sid t =
        stepFold (occurrencesOf snaps sid t) (st.titleInfo sid t)
  | [], st, _, hinv => ⟨hinv, fun _ _ => rfl⟩
  | q :: snaps', st, hkeys, hinv => by
    obtain ⟨hinv1, hchar1⟩ := snapshotFold_spec q.2 q.1 st
      (hkeys q (List.mem_cons_self _ _)).1
      (fun s hs => (hkeys q (List.mem_cons_self _ _)).2 s hs) hinv
    rw [List.foldl_cons]
    obtain ⟨hinv2, hchar2⟩ := dayFold_spec snaps' _
      (fun q' hq => hkeys q' (List.mem_cons_of_mem _ hq)) hinv1
    refine ⟨hinv2, fun sid t => ?_⟩
    rw [hchar2 sid t, hchar1 sid t, occurrencesOf_cons]
    cases List.lookup sid q.2 with
    | none => rfl
    | some tm =>
      dsimp only
      cases List.lookup t tm with
      | none => rfl
      | some d => rfl

theorem readAll_titleInfo (snaps : List (String × Results))
    (hkeys : ∀ q ∈ snaps, ((q.2 : Results).map Prod.fst).Nodup ∧
      ∀ s ∈ (q.2 : Results), ((s.2 : TitleMap).map Prod.fst).Nodup) :
    ∀ sid t, (readAllTodayTitles snaps).titleInfo sid t =
      stepFold (occurrencesOf snaps sid t) none := by
  have hinv0 : MergeInv emptyMergeState := by
    intro sid t
    exact ⟨fun _ => rfl, fun res h => Option.noConfusion h⟩
  exact (dayFold_spec snaps emptyMergeState hkeys hinv0).2

theorem stepFold_append (l1 l2 : List (String × TitleData)) (acc : Option LedgerEntry) :
    stepFold (l1 ++ l2) acc = stepFold l2 (stepFold l1 acc) := by
  unfold stepFold
  rw [List.foldl_append]

theorem stepFold_specEntry (l : List (String × TitleData)) :
    l ≠ [] → (∀ p ∈ l, p.2.ranks.Nodup) →
    stepFold l none = some (specEntry l) := by
  induction l using List.reverseRecOn with
  | nil => intro h _; exact absurd rfl h
  | append_singleton l' x ih =>
    intro _ hranks
    have hrx : x.2.ranks.Nodup := hranks x (List.mem_append_right _ (List.mem_singleton_self x))
    by_cases hl' : l' = []
    · subst hl'
      refine congrArg some ?_
      unfold specEntry newEntry
      simp only [List.nil_append, LedgerEntry.mk.injEq]
      refine ⟨rfl, rfl, rfl, ?_, ?_, ?_⟩
      · rw [show (([x].map (fun y => y.2.ranks)).flatten) = x.2.ranks ++ [] from rfl,
          List.append_nil,
          mergeRanks_nil_of_nodup x.2.ranks [] (by simpa using hrx)]
        rfl
      · by_cases hx : x.2.url = "" <;> simp [hx]
      · by_cases hx : x.2.mobileUrl = "" <;> simp [hx]
    · have he := ih hl' (fun p hp => hranks p (List.mem_append_left _ hp))
      rw [stepFold_append, he]
      refine congrArg some ?_
      unfold mergeEntry specEntry
      simp only [LedgerEntry.mk.injEq, List.map_append, List.flatten_append,
        List.head?_append, List.getLast?_concat, List.length_append]
      refine ⟨?_, rfl, rfl, ?_, ?_, ?_⟩
      · cases hh : l'.head? with
        | none => exact absurd (List.head?_eq_none_iff.mp hh) hl'
        | some a => simp [hh]
      · rw [mergeRanks_append]
        congr 1
        rw [show (([x].map (fun y => y.2.ranks)).flatten) = x.2.ranks ++ [] from rfl,
          List.append_nil]
      · cases hu : (l'.map (fun y => y.2.url)).find? (fun u => !(u == "")) with
        | some u =>
          have hpu := List.find?_some hu
          simp only [Bool.not_eq_true', beq_eq_false_iff_ne] at hpu
          simp [hu, hpu]
        | none =>
          by_cases hx : x.2.url = "" <;> simp [hu, hx]
      · cases hu : (l'.map (fun y => y.2.mobileUrl)).find? (fun u => !(u == "")) with
        | some u =>
          have hpu := List.find?_some hu
          simp only [Bool.not_eq_true', beq_eq_false_iff_ne] at hpu
          simp [hu, hpu]
        | none =>
          by_cases hx : x.2.mobileUrl = "" <;> simp [hu, hx]

theorem occ_times_sublist :
    ∀ (snaps : List (String × Results)) (sid t : String),
      ((occurrencesOf snaps sid t).map Prod.fst).Sublist (snaps.map Prod.fst)
  | [], sid, t => by simp [occurrencesOf]
  | q :: snaps', sid, t => by
    rw [occurrencesOf_cons]
    simp only [List.map_cons]
    cases List.lookup sid q.2 with
    | none => exact List.Sublist.cons q.1 (occ_times_sublist snaps' sid t)
    | some tm =>
      dsimp only
      cases List.lookup t tm with
      | none => exact List.Sublist.cons q.1 (occ_times_sublist snaps' sid t)
      | some d =>
        simp only [List.map_cons]
        exact List.Sublist.cons₂ q.1 (occ_times_sublist snaps' sid t)

theorem pairwise_head_getLast (l : List String)
    (hp : l.Pairwise (fun a b => strLe a b = true))
    (a b : String) (ha : l.head? = some a) (hb : l.getLast? = some b) :
    strLe a b = true := by
  have hbmem : b ∈ l := getLast?_mem_own hb
  cases l with
  | nil => exact absurd ha (by simp)
  | cons c rest =>
    injection ha with ha
    subst ha
    rcases List.mem_cons.mp hbmem with hb1 | hb2
    · rw [hb1]; exact strLe_refl c
    · exact (List.pairwise_cons.mp hp).1 b hb2

theorem occ_ranks_nodup (snaps : List (String × Results)) (sid t : String)
    (hranks : ∀ q ∈ snaps, ∀ s ∈ (q.2 : Results), ∀ p ∈ (s.2 : TitleMap),
      (p.2 : TitleData).ranks.Nodup) :
    ∀ p ∈ occurrencesOf snaps sid t, (p.2 : TitleData).ranks.Nodup := by
  intro p hp
  unfold occurrencesOf at hp
  rcases List.mem_filterMap.mp hp with ⟨q, hq, hf⟩
  rcases Option.map_eq_some'.mp hf with ⟨d, hbind, hpd⟩
  rcases Option.bind_eq_some.mp hbind with ⟨tm, hlm, hlt⟩
  subst hpd
  exact hranks q hq (sid, tm) (mem_of_lookup _ _ _ hlm)
    (t, d) (mem_of_lookup _ _ _ hlt)

/-- C4: Ledger merge invariant. Folding any day's ordered snapshot list
(snapshot source maps and title maps with duplicate-free keys, per-title
rank lists duplicate-free, snapshot times in nondecreasing zero-padded
order), every ledger entry per source and title equals the specification
entry of its occurrence list: it is absent when the title never occurred,
and otherwise carries count = number of snapshots containing the title for
that source, the first and last snapshot times, first-seen-order
duplicate-free merged ranks, and the first non-empty url/mobileUrl (never
overwritten by a later blank); moreover every stored entry has
duplicate-free ranks, first_time ≤ last_time, and count equal to its
occurrence count. -/
theorem ledger_merge_invariant (snaps : List (String × Results))
    (hkeys : ∀ q ∈ snaps, ((q.2 : Results).map Prod.fst).Nodup ∧
      ∀ s ∈ (q.2 : Results), ((s.2 : TitleMap).map Prod.fst).Nodup)
    (hranks : ∀ q ∈ snaps, ∀ s ∈ (q.2 : Results), ∀ p ∈ (s.2 : TitleMap),
      (p.2 : TitleData).ranks.Nodup)
    (htimes : (snaps.map Prod.fst).Pairwise (fun a b => strLe a b = true)) :
    ∀ sid t,
      (occurrencesOf snaps sid t = [] →
        (readAllTodayTitles snaps).titleInfo sid t = none) ∧
      (occurrencesOf snaps sid t ≠ [] →
        (readAllTodayTitles snaps).titleInfo sid t =
          some (specEntry (occurrencesOf snaps sid t))) ∧
      ∀ e, (readAllTodayTitles snaps).titleInfo sid t = some e →
        e.ranks.Nodup ∧ strLe e.firstTime e.lastTime = true ∧
        e.count = (occurrencesOf snaps sid t).length := by
  intro sid t
  have hchar := readAll_titleInfo snaps hkeys sid t
  refine ⟨fun hemp => ?_, fun hne => ?_, fun e he => ?_⟩
  · rw [hchar, hemp]; rfl
  · rw [hchar, stepFold_specEntry _ hne (occ_ranks_nodup snaps sid t hranks)]
  · by_cases hemp : occurrencesOf snaps sid t = []
    · rw [hchar, hemp] at he
      exact absurd he (by simp [stepFold])
    · rw [hchar,
        stepFold_specEntry _ hemp (occ_ranks_nodup snaps sid t hranks)] at he
      injection he with he
      subst he
      refine ⟨mergeRanks_nodup _ [] List.nodup_nil, ?_, rfl⟩
      have hpair : ((occurrencesOf snaps sid t).map Prod.fst).Pairwise
          (fun a b => strLe a b = true) :=
        List.Pairwise.sublist (occ_times_sublist snaps sid t) htimes
      obtain ⟨b, hb⟩ : ∃ b, (occurrencesOf snaps sid t).getLast? = some b :=
        ⟨_, List.getLast?_eq_getLast _ hemp⟩
      obtain ⟨a, ha⟩ : ∃ a, (occurrencesOf snaps sid t).head? = some a := by
        cases hocc : occurrencesOf snaps sid t with
        | nil => exact absurd hocc hemp
        | cons p l2 => exact ⟨p, rfl⟩
      have hf : (specEntry (occurrencesOf snaps sid t)).firstTime = a.1 := by
        unfold specEntry
        rw [ha]
        rfl
      have hl : (specEntry (occurrencesOf snaps sid t)).lastTime = b.1 := by
        unfold specEntry
        rw [hb]
        rfl
      rw [hf, hl]
      exact pairwise_head_getLast _ hpair a.1 b.1
        (by rw [List.head?_map, ha]; rfl)
        (by rw [List.getLast?_map, hb]; rfl)

/-- Witness for C4 at a concrete two-snapshot day: the title "T" of source
"src" appears in both snapshots; its ledger entry merges the ranks in
first-seen order without duplicates, keeps the first snapshot time as
first_time, the second as last_time, counts 2 occurrences and backfills
the urls from the second snapshot. -/
theorem ledger_merge_invariant_witness :
    (readAllTodayTitles
        [("08:00", [("src", [("T", (⟨[1, 2], "", ""⟩ : TitleData))])]),
         ("09:30", [("src", [("T", (⟨[2, 3], "http://u", "m1"⟩ : TitleData))])])]).titleInfo
        "src" "T" =
      some (⟨"08:00", "09:30", 2, [1, 2, 3], "http://u", "m1"⟩ : LedgerEntry) := by
  have h := ledger_merge_invariant
    [("08:00", [("src", [("T", (⟨[1, 2], "", ""⟩ : TitleData))])]),
     ("09:30", [("src", [("T", (⟨[2, 3], "http://u", "m1"⟩ : TitleData))])])]
    (by decide) (by decide) (by decide) "src" "T"
  have hocc : occurrencesOf
      [("08:00", [("src", [("T", (⟨[1, 2], "", ""⟩ : TitleData))])]),
       ("09:30", [("src", [("T", (⟨[2, 3], "http://u", "m1"⟩ : TitleData))])])]
      "src" "T" =
      [("08:00", (⟨[1, 2], "", ""⟩ : TitleData)),
       ("09:30", (⟨[2, 3], "http://u", "m1"⟩ : TitleData))] := rfl
  have h2 := h.2.1 (by rw [hocc]; exact List.cons_ne_nil _ _)
  rw [h2, hocc]
  rfl

/-! ### Batch packer lemmas -/

theorem forced_statScript (ftype bh sh : String) (n : Nat) :
    ∀ (i : Nat) (gs : List StatGroupB) (s : String),
      PackPiece.forced s ∈ statScript ftype bh sh n i gs → s = "\n"
  | _, [], _ => by simp [statScript]
  | i, g :: gs, s => by
    unfold statScript
    intro h
    rcases List.mem_append.mp h with h1 | h2
    · rcases List.mem_cons.mp h1 with h3 | h4
      · exact absurd h3 (by simp)
      · rcases List.mem_append.mp h4 with h5 | h6
        · exact absurd h5 (by simp)
        · by_cases hi : i < n - 1
          · rw [if_pos hi] at h6
            exact absurd (List.mem_singleton.mp h6) (by simp)
          · rw [if_neg hi] at h6
            exact absurd h6 (by simp)
    · exact forced_statScript ftype bh sh n (i + 1) gs s h2

theorem forced_newScript (bh nh : String) :
    ∀ (srcs : List NewSourceB) (s : String),
      PackPiece.forced s ∈ newScript bh nh srcs → s = "\n"
  | [], _ => by simp [newScript]
  | src :: srcs, s => by
    unfold newScript
    intro h
    rcases List.mem_append.mp h with h1 | h2
    · rcases List.mem_cons.mp h1 with h3 | h4
      · exact absurd h3 (by simp)
      · rcases List.mem_append.mp h4 with h5 | h6
        · exact absurd h5 (by simp)
        · simpa using List.mem_singleton.mp h6
    · exact forced_newScript bh nh srcs s h2

theorem forced_fullScript (ftype : String) (rd : ReportDataB) :
    ∀ s, PackPiece.forced s ∈ fullScript ftype rd → s = "\n" := by
  intro s h
  unfold fullScript at h
  rcases List.mem_append.mp h with h12 | h3
  · rcases List.mem_append.mp h12 with h1 | h2
    · by_cases he : rd.stats.isEmpty
      · rw [if_pos he] at h1; exact absurd h1 (by simp)
      · rw [if_neg he] at h1
        rcases List.mem_cons.mp h1 with h4 | h5
        · exact absurd h4 (by simp)
        · exact forced_statScript _ _ _ _ _ _ s h5
    · by_cases he : rd.newTitles.isEmpty
      · rw [if_pos he] at h2; exact absurd h2 (by simp)
      · rw [if_neg he] at h2
        rcases List.mem_cons.mp h2 with h4 | h5
        · exact absurd h4 (by simp)
        · exact forced_newScript _ _ _ s h5
  · by_cases he : rd.failedIds.isEmpty
    · rw [if_pos he] at h3; exact absurd h3 (by simp)
    · rw [if_neg he] at h3
      rcases List.mem_cons.mp h3 with h4 | h5
      · exact absurd h4 (by simp)
      · exact absurd h5 (by simp [failedScript])

theorem execScript_boundInv (maxB : Nat) (footer : String)
    (U : String → String → Prop) :
    ∀ (ps : List PackPiece) (st : PackState),
      (∀ pre u, PackPiece.unit pre u ∈ ps → U pre u) →
      (∀ s, PackPiece.forced s ∈ ps → s = "\n") →
      (∀ b ∈ st.batches, BatchOK maxB footer U b) →
      (st.hasContent = true → CurOK maxB footer U st.current) →
      (∀ b ∈ (execScript maxB footer ps st).batches, BatchOK maxB footer U b) ∧
      ((execScript maxB footer ps st).hasContent = true →
        CurOK maxB footer U (execScript maxB footer ps st).current)
  | [], st, _, _, hb, hc => ⟨hb, hc⟩
  | p :: ps', st, hU, hF, hb, hc => by
    rw [show execScript maxB footer (p :: ps') st =
      execScript maxB footer ps' (execPiece maxB footer st p) from rfl]
    refine execScript_boundInv maxB footer U ps' (execPiece maxB footer st p)
      (fun pre u h => hU pre u (List.mem_cons_of_mem _ h))
      (fun s h => hF s (List.mem_cons_of_mem _ h)) ?_ ?_
    · intro b hbm
      cases p with
      | unit pre u =>
        simp only [execPiece, addUnit] at hbm
        by_cases hge : maxB ≤ utf8Len (st.current ++ u) + utf8Len footer
        · rw [if_pos hge] at hbm
          dsimp only at hbm
          cases hhc : st.hasContent with
          | false =>
            rw [hhc, if_neg (by simp)] at hbm
            exact hb b hbm
          | true =>
            rw [hhc, if_pos rfl] at hbm
            rcases List.mem_append.mp hbm with hold | hnew
            · exact hb b hold
            · obtain ⟨base, k, hcur, hok⟩ := hc hhc
              rw [List.mem_singleton.mp hnew, hcur]
              exact ⟨base, k, rfl, hok⟩
        · rw [if_neg hge] at hbm
          exact hb b hbm
      | sep s =>
        simp only [execPiece, addSep] at hbm
        by_cases hlt : utf8Len (st.current ++ s) + utf8Len footer < maxB
        · rw [if_pos hlt] at hbm; exact hb b hbm
        · rw [if_neg hlt] at hbm; exact hb b hbm
      | forced s => exact hb b hbm
    · intro hhc2
      cases p with
      | unit pre u =>
        simp only [execPiece, addUnit]
        by_cases hge : maxB ≤ utf8Len (st.current ++ u) + utf8Len footer
        · rw [if_pos hge]
          dsimp only
          refine ⟨pre ++ u, 0, by rw [show nlRepeat 0 = "" from rfl, String.append_empty], ?_⟩
          by_cases hover : maxB ≤ utf8Len (pre ++ u) + utf8Len footer
          · exact Or.inr ⟨pre, u, hU pre u (List.mem_cons_self _ _), rfl, hover⟩
          · exact Or.inl (Nat.lt_of_not_le hover)
        · rw [if_neg hge]
          dsimp only
          exact ⟨st.current ++ u, 0,
            by rw [show nlRepeat 0 = "" from rfl, String.append_empty],
            Or.inl (Nat.lt_of_not_le hge)⟩
      | sep s =>
        simp only [execPiece, addSep]
        by_cases hlt : utf8Len (st.current ++ s) + utf8Len footer < maxB
        · rw [if_pos hlt]
          dsimp only
          exact ⟨st.current ++ s, 0,
            by rw [show nlRepeat 0 = "" from rfl, String.append_empty], Or.inl hlt⟩
        · rw [if_neg hlt]
          simp only [execPiece, addSep] at hhc2
          rw [if_neg hlt] at hhc2
          exact hc hhc2
      | forced s =>
        simp only [execPiece]
        simp only [execPiece] at hhc2
        obtain ⟨base, k, hcur, hok⟩ := hc hhc2
        rw [hF s (List.mem_cons_self _ _)]
        exact ⟨base, k + 1,
          by rw [hcur, show nlRepeat (k + 1) = nlRepeat k ++ "\n" from rfl,
            String.append_assoc], hok⟩

/-- C2 counterexample: for the empty report the placeholder batch is
emitted without any size measurement, so with a byte budget of 1 the
single returned batch exceeds the budget although the report contains no
atomic placement unit at all (its append script is empty). -/
theorem batch_byte_bound_counterexample :
    fullScript "telegram" (⟨[], [], 0, []⟩ : ReportDataB) = [] ∧
    ∃ b ∈ splitContentIntoBatches "telegram" "2024-01-01 00:00:00" none 1 "daily"
        (⟨[], [], 0, []⟩ : ReportDataB), 1 < utf8Len b :=
  ⟨rfl, by decide⟩

/-- C2 (amended): for every non-empty report, formatter output, byte
budget and footer, every returned batch consists of a size-checked core,
the unconditional per-source newline separators, and the reserved footer,
where the core either fits strictly under the budget together with the
footer, or is exactly one re-stamped atomic placement unit of the report's
append script that already meets or exceeds the budget with the footer. -/
theorem batch_byte_bound (ftype nowStr : String) (upd : Option (String × String))
    (maxB : Nat) (mode : String) (rd : ReportDataB)
    (hne : (rd.stats.isEmpty && rd.newTitles.isEmpty && rd.failedIds.isEmpty) = false) :
    ∀ b ∈ splitContentIntoBatches ftype nowStr upd maxB mode rd,
      BatchOK maxB (baseFooterOf ftype nowStr upd)
        (fun pre u => PackPiece.unit pre u ∈ fullScript ftype rd) b := by
  intro b hbm
  unfold splitContentIntoBatches at hbm
  rw [if_neg (by rw [hne]; exact fun h => Bool.noConfusion h)] at hbm
  obtain ⟨hbat, hcur⟩ := execScript_boundInv maxB (baseFooterOf ftype nowStr upd)
    (fun pre u => PackPiece.unit pre u ∈ fullScript ftype rd) (fullScript ftype rd)
    { batches := [], current := baseHeaderOf rd.stats, hasContent := false }
    (fun _ _ h => h) (forced_fullScript ftype rd)
    (fun b2 hb2 => absurd hb2 (by simp))
    (fun h => absurd h (by simp))
  unfold finalizeBatches at hbm
  cases hhc : (execScript maxB (baseFooterOf ftype nowStr upd) (fullScript ftype rd)
      { batches := [], current := baseHeaderOf rd.stats, hasContent := false }).hasContent with
  | false =>
    rw [hhc, if_neg (by simp)] at hbm
    exact hbat b hbm
  | true =>
    rw [hhc, if_pos rfl] at hbm
    rcases List.mem_append.mp hbm with hold | hnew
    · exact hbat b hold
    · obtain ⟨base, k, hcu, hok⟩ := hcur hhc
      rw [List.mem_singleton.mp hnew, hcu]
      exact ⟨base, k, rfl, hok⟩

/-- Witness for the amended C2 at a concrete one-group report with a
small budget. -/
theorem batch_byte_bound_witness :
    (((⟨[⟨"w", 1, ["A"]⟩], [], 0, []⟩ : ReportDataB).stats.isEmpty &&
        (⟨[⟨"w", 1, ["A"]⟩], [], 0, []⟩ : ReportDataB).newTitles.isEmpty &&
        (⟨[⟨"w", 1, ["A"]⟩], [], 0, []⟩ : ReportDataB).failedIds.isEmpty) = false) ∧
    ∀ b ∈ splitContentIntoBatches "telegram" "NOW" none 80 "daily"
        (⟨[⟨"w", 1, ["A"]⟩], [], 0, []⟩ : ReportDataB),
      BatchOK 80 (baseFooterOf "telegram" "NOW" none)
        (fun pre u => PackPiece.unit pre u ∈
          fullScript "telegram" (⟨[⟨"w", 1, ["A"]⟩], [], 0, []⟩ : ReportDataB)) b :=
  ⟨by decide, batch_byte_bound "telegram" "NOW" none 80 "daily" _ (by decide)⟩

theorem joinTexts_snoc (us : List PackPiece) (p : PackPiece) :
    joinTexts (us ++ [p]) = joinTexts us ++ pieceText p := by
  unfold joinTexts
  rw [List.foldl_append]
  rfl

theorem joinTexts_single (p : PackPiece) : joinTexts [p] = pieceText p := by
  unfold joinTexts
  rw [List.foldl_cons, List.foldl_nil, String.empty_append]

theorem stampOf_append (us l : List PackPiece) (h : headIsUnit us) :
    stampOf (us ++ l) = stampOf us := by
  obtain ⟨pre, u, tl, rfl⟩ := h
  rfl

theorem headIsUnit_append (us l : List PackPiece) (h : headIsUnit us) :
    headIsUnit (us ++ l) := by
  obtain ⟨pre, u, tl, rfl⟩ := h
  exact ⟨pre, u, tl ++ l, rfl⟩

theorem fullScript_head (ftype : String) (rd : ReportDataB)
    (hne : (rd.stats.isEmpty && rd.newTitles.isEmpty && rd.failedIds.isEmpty) = false) :
    ∃ u tl, fullScript ftype rd = PackPiece.unit (baseHeaderOf rd.stats) u :: tl := by
  unfold fullScript
  cases hs : rd.stats.isEmpty with
  | false =>
    rw [if_neg (fun h => Bool.noConfusion h)]
    exact ⟨statsHeaderOf rd.stats, _, by rw [List.cons_append, List.cons_append]⟩
  | true =>
    rw [if_pos rfl, List.nil_append]
    cases hn : rd.newTitles.isEmpty with
    | false =>
      rw [if_neg (fun h => Bool.noConfusion h)]
      exact ⟨newHeaderOf rd.totalNewCount, _, by rw [List.cons_append]⟩
    | true =>
      rw [if_pos rfl, List.nil_append]
      cases hf : rd.failedIds.isEmpty with
      | false =>
        rw [if_neg (fun h => Bool.noConfusion h)]
        exact ⟨failedHeader, _, rfl⟩
      | true =>
        rw [hs, hn, hf] at hne
        exact absurd hne (by simp)

theorem execScript_partition (maxB : Nat) (footer bh : String) :
    ∀ (ps : List PackPiece) (st : PackState) (done : List (List PackPiece))
      (cs : List PackPiece),
      st.batches = done.map (batchRender footer) →
      (∀ us ∈ done, headIsUnit us) →
      CurRep bh st cs →
      (cs = [] → ps = [] ∨ ∃ u tl, ps = PackPiece.unit bh u :: tl) →
      ∃ (done2 : List (List PackPiece)) (cs2 kept : List PackPiece),
        (execScript maxB footer ps st).batches = done2.map (batchRender footer) ∧
        (∀ us ∈ done2, headIsUnit us) ∧
        CurRep bh (execScript maxB footer ps st) cs2 ∧
        done2.flatten ++ cs2 = (done.flatten ++ cs) ++ kept ∧
        kept.Sublist ps ∧
        kept.filter (fun q => !(isSep q)) = ps.filter (fun q => !(isSep q))
  | [], st, done, cs, hb, hu, hcr, _ => by
    refine ⟨done, cs, [], hb, hu, hcr, ?_, List.nil_sublist _, rfl⟩
    rw [List.append_nil]
  | p :: ps', st, done, cs, hb, hu, hcr, hcs0 => by
    rw [show execScript maxB footer (p :: ps') st =
      execScript maxB footer ps' (execPiece maxB footer st p) from rfl]
    obtain ⟨done1, cs1, k1, hb1, hu1, hcr1, hacc1, hk1sub, hk1f, hcs1ne⟩ :
        ∃ (done1 : List (List PackPiece)) (cs1 k1 : List PackPiece),
          (execPiece maxB footer st p).batches = done1.map (batchRender footer) ∧
          (∀ us ∈ done1, headIsUnit us) ∧
          CurRep bh (execPiece maxB footer st p) cs1 ∧
          done1.flatten ++ cs1 = (done.flatten ++ cs) ++ k1 ∧
          k1.Sublist [p] ∧
          k1.filter (fun q => !(isSep q)) = [p].filter (fun q => !(isSep q)) ∧
          cs1 ≠ [] := by
      cases p with
      | unit pre u =>
        simp only [execPiece, addUnit]
        by_cases hge : maxB ≤ utf8Len (st.current ++ u) + utf8Len footer
        · rw [if_pos hge]
          rcases hcr with ⟨hcsnil, hcurbh, hhc⟩ | ⟨hhu, hcur, hhc⟩
          · refine ⟨done, [PackPiece.unit pre u], [PackPiece.unit pre u], ?_, hu, ?_,
              ?_, List.Sublist.refl _, rfl, List.cons_ne_nil _ _⟩
            · dsimp only
              rw [hhc, if_neg (by simp)]
              exact hb
            · exact Or.inr ⟨⟨pre, u, [], rfl⟩, by rw [joinTexts_single]; rfl, rfl⟩
            · simp [hcsnil]
          · refine ⟨done ++ [cs], [PackPiece.unit pre u], [PackPiece.unit pre u], ?_, ?_,
              ?_, ?_, List.Sublist.refl _, rfl, List.cons_ne_nil _ _⟩
            · dsimp only
              rw [hhc, if_pos rfl, hb, hcur]
              simp [batchRender]
            · intro us hus
              rcases List.mem_append.mp hus with h1 | h2
              · exact hu us h1
              · rw [List.mem_singleton.mp h2]
                exact hhu
            · exact Or.inr ⟨⟨pre, u, [], rfl⟩, by rw [joinTexts_single]; rfl, rfl⟩
            · simp [List.flatten_append]
        · rw [if_neg hge]
          rcases hcr with ⟨hcsnil, hcurbh, hhc⟩ | ⟨hhu, hcur, hhc⟩
          · rcases hcs0 hcsnil with hps | ⟨u', tl, heq⟩
            · exact absurd hps (List.cons_ne_nil _ _)
            · injection heq with h1 h2
              injection h1 with hpre hu'
              subst hpre
              refine ⟨done, [PackPiece.unit pre u], [PackPiece.unit pre u], hb, hu,
                ?_, ?_, List.Sublist.refl _, rfl, List.cons_ne_nil _ _⟩
              · refine Or.inr ⟨⟨pre, u, [], rfl⟩, ?_, rfl⟩
                dsimp only
                rw [hcurbh, joinTexts_single]
                rfl
              · simp [hcsnil]
          · refine ⟨done, cs ++ [PackPiece.unit pre u], [PackPiece.unit pre u], hb, hu,
              ?_, (List.append_assoc _ _ _).symm, List.Sublist.refl _, rfl, by simp⟩
            refine Or.inr ⟨headIsUnit_append cs _ hhu, ?_, rfl⟩
            dsimp only
            rw [hcur, joinTexts_snoc, stampOf_append cs _ hhu, String.append_assoc]
            rfl
      | sep s0 =>
        simp only [execPiece, addSep]
        rcases hcr with ⟨hcsnil, hcurbh, hhc⟩ | ⟨hhu, hcur, hhc⟩
        · rcases hcs0 hcsnil with hps | ⟨u', tl, heq⟩
          · exact absurd hps (List.cons_ne_nil _ _)
          · exact absurd heq (by simp)
        · have hcsne : cs ≠ [] := by
            obtain ⟨pre, u, tl, h⟩ := hhu
            rw [h]
            exact List.cons_ne_nil _ _
          by_cases hlt : utf8Len (st.current ++ s0) + utf8Len footer < maxB
          · rw [if_pos hlt]
            refine ⟨done, cs ++ [PackPiece.sep s0], [PackPiece.sep s0], hb, hu, ?_,
              (List.append_assoc _ _ _).symm, List.Sublist.refl _, rfl, by simp⟩
            refine Or.inr ⟨headIsUnit_append cs _ hhu, ?_, hhc⟩
            dsimp only
            rw [hcur, joinTexts_snoc, stampOf_append cs _ hhu, String.append_assoc]
            rfl
          · rw [if_neg hlt]
            exact ⟨done, cs, [], hb, hu, Or.inr ⟨hhu, hcur, hhc⟩,
              by rw [List.append_nil], List.nil_sublist _, rfl, hcsne⟩
      | forced s0 =>
        simp only [execPiece]
        rcases hcr with ⟨hcsnil, hcurbh, hhc⟩ | ⟨hhu, hcur, hhc⟩
        · rcases hcs0 hcsnil with hps | ⟨u', tl, heq⟩
          · exact absurd hps (List.cons_ne_nil _ _)
          · exact absurd heq (by simp)
        · refine ⟨done, cs ++ [PackPiece.forced s0], [PackPiece.forced s0], hb, hu, ?_,
            (List.append_assoc _ _ _).symm, List.Sublist.refl _, rfl, by simp⟩
          refine Or.inr ⟨headIsUnit_append cs _ hhu, ?_, hhc⟩
          dsimp only
          rw [hcur, joinTexts_snoc, stampOf_append cs _ hhu, String.append_assoc]
          rfl
    obtain ⟨done2, cs2, kept', hb2, hu2, hcr2, hacc2, hsub2, hf2⟩ :=
      execScript_partition maxB footer bh ps' (execPiece maxB footer st p) done1 cs1
        hb1 hu1 hcr1 (fun hemp => absurd hemp hcs1ne)
    refine ⟨done2, cs2, k1 ++ kept', hb2, hu2, hcr2, ?_, ?_, ?_⟩
    · rw [hacc2, hacc1, List.append_assoc]
    · exact List.Sublist.append hk1sub hsub2
    · rw [List.filter_append, hk1f, hf2, ← List.filter_append]
      rfl

set_option maxRecDepth 4000 in
/-- C3 counterexample: a stat group whose titles list is empty places its
group header into a batch with no rendered news item following it (the
batch contains the header but no item line at all), refuting the claim
that a group header is never placed without its first rendered item. -/
theorem batch_atomicity_counterexample :
    ∃ b ∈ splitContentIntoBatches "telegram" "NOW" none 4000 "daily"
        (⟨[⟨"w", 1, []⟩], [], 0, []⟩ : ReportDataB),
      ("📌 [1/1] w : 1 tin\n\n".data.IsInfix b.data) ∧
      ¬ ("  1. ".data.IsInfix b.data) := by decide

/-- C3 (amended): batch completeness and atomicity characterization. For
every non-empty report, the batch list is exactly a partition of the
report's append script (with some size-checked separators dropped, but
every atomic unit and every forced newline kept, in order) into
consecutive runs, each starting with an atomic unit, rendered as that
unit's re-stamp prefix followed by the texts of the run's pieces and the
footer. Hence every rendered line occurs in exactly one batch, in order,
and each (header + first line) unit is contiguous within its batch. -/
theorem batch_completeness (ftype nowStr : String) (upd : Option (String × String))
    (maxB : Nat) (mode : String) (rd : ReportDataB)
    (hne : (rd.stats.isEmpty && rd.newTitles.isEmpty && rd.failedIds.isEmpty) = false) :
    ∃ (parts : List (List PackPiece)) (kept : List PackPiece),
      kept.Sublist (fullScript ftype rd) ∧
      kept.filter (fun q => !(isSep q)) =
        (fullScript ftype rd).filter (fun q => !(isSep q)) ∧
      parts.flatten = kept ∧
      (∀ us ∈ parts, headIsUnit us) ∧
      splitContentIntoBatches ftype nowStr upd maxB mode rd =
        parts.map (batchRender (baseFooterOf ftype nowStr upd)) := by
  obtain ⟨done2, cs2, kept, hb2, hu2, hcr2, hacc2, hsub2, hf2⟩ :=
    execScript_partition maxB (baseFooterOf ftype nowStr upd) (baseHeaderOf rd.stats)
      (fullScript ftype rd)
      { batches := [], current := baseHeaderOf rd.stats, hasContent := false }
      [] [] rfl (fun us hus => absurd hus (by simp)) (Or.inl ⟨rfl, rfl, rfl⟩)
      (fun _ => by
        obtain ⟨u, tl, h⟩ := fullScript_head ftype rd hne
        exact Or.inr ⟨u, tl, h⟩)
  have hacc : done2.flatten ++ cs2 = kept := by simpa using hacc2
  rcases hcr2 with ⟨hcs2nil, hcur2, hhc2⟩ | ⟨hhu2, hcur2, hhc2⟩
  · refine ⟨done2, kept, hsub2, hf2, ?_, hu2, ?_⟩
    · rw [← hacc, hcs2nil, List.append_nil]
    · unfold splitContentIntoBatches
      rw [if_neg (by rw [hne]; exact fun h => Bool.noConfusion h)]
      unfold finalizeBatches
      rw [hhc2, if_neg (by simp)]
      exact hb2
  · refine ⟨done2 ++ [cs2], kept, hsub2, hf2, ?_, ?_, ?_⟩
    · rw [← hacc]
      simp [List.flatten_append]
    · intro us hus
      rcases List.mem_append.mp hus with h1 | h2
      · exact hu2 us h1
      · rw [List.mem_singleton.mp h2]
        exact hhu2
    · unfold splitContentIntoBatches
      rw [if_neg (by rw [hne]; exact fun h => Bool.noConfusion h)]
      unfold finalizeBatches
      rw [hhc2, if_pos rfl, hb2, hcur2, List.map_append]
      rfl

/-- Witness for the amended C3 at a concrete new-titles report with a
small budget. -/
theorem batch_completeness_witness :
    (((⟨[], [⟨"S", ["N1", "N2"]⟩], 2, []⟩ : ReportDataB).stats.isEmpty &&
        (⟨[], [⟨"S", ["N1", "N2"]⟩], 2, []⟩ : ReportDataB).newTitles.isEmpty &&
        (⟨[], [⟨"S", ["N1", "N2"]⟩], 2, []⟩ : ReportDataB).failedIds.isEmpty) = false) ∧
    ∃ (parts : List (List PackPiece)) (kept : List PackPiece),
      kept.Sublist (fullScript "telegram" (⟨[], [⟨"S", ["N1", "N2"]⟩], 2, []⟩ : ReportDataB)) ∧
      kept.filter (fun q => !(isSep q)) =
        (fullScript "telegram" (⟨[], [⟨"S", ["N1", "N2"]⟩], 2, []⟩ : ReportDataB)).filter
          (fun q => !(isSep q)) ∧
      parts.flatten = kept ∧
      (∀ us ∈ parts, headIsUnit us) ∧
      splitContentIntoBatches "telegram" "NOW" none 100 "daily"
          (⟨[], [⟨"S", ["N1", "N2"]⟩], 2, []⟩ : ReportDataB) =
        parts.map (batchRender (baseFooterOf "telegram" "NOW" none)) :=
  ⟨by decide, batch_completeness "telegram" "NOW" none 100 "daily" _ (by decide)⟩

end TrendNews
